import Mathlib

/-!
# choerodon-cluster-agent, package `git`: a shallow embedding

The package drives the `git` binary as a subprocess.  The embedding keeps the
Go control flow of `pkg/git/operations.go` and `pkg/git/working.go` and
replaces the subprocess by a function from the history of the calls issued so
far and the current call to the observable outcome of `c.Run()`.  Every
operation threads the history explicitly, so statements about which
subprocesses are issued, in which order and with which arguments, are
statements about the returned history.

Go strings are lists of characters.  Logging (`glog`, the stack dump that
follows a failed subprocess, the `trace` constant which is `false`) has no
effect on any returned value and is left out.  A run-time panic is a value
of `Except Panic`.

`LoadControllersByKind` of `pkg/polaris/validator/controllers/interface.go`
is embedded in the namespace `Polaris`.
-/

set_option autoImplicit false

namespace Git

/-! ## Strings -/

/-- A Go string. -/
abbrev GoString := List Char

instance : Coe String GoString := ⟨String.toList⟩

/-- Go `strings.HasPrefix s p`. -/
def stringsHasPrefix (s p : GoString) : Bool := p.isPrefixOf s

/-- Go `strings.Contains s sub`. -/
def stringsContains : GoString → GoString → Bool
  | [], sub => sub.isEmpty
  | c :: cs, sub => sub.isPrefixOf (c :: cs) || stringsContains cs sub

/-- Drop the characters satisfying `p` from the end of `s`. -/
def trimRightFunc (p : Char → Bool) (s : GoString) : GoString :=
  (s.reverse.dropWhile p).reverse

/-- Go `strings.Trim s cutset`: drop the leading and the trailing characters
that occur in `cutset`. -/
def stringsTrim (s cutset : GoString) : GoString :=
  trimRightFunc (fun c => cutset.contains c) (s.dropWhile (fun c => cutset.contains c))

/-- Go `unicode.IsSpace`. -/
def isSpace (c : Char) : Bool :=
  let n := c.toNat
  (9 ≤ n && n ≤ 13) || n == 32 || n == 0x85 || n == 0xA0 || n == 0x1680 ||
  (0x2000 ≤ n && n ≤ 0x200a) || n == 0x2028 || n == 0x2029 || n == 0x202f ||
  n == 0x205f || n == 0x3000

/-- Go `strings.TrimSpace`. -/
def trimSpace (s : GoString) : GoString :=
  trimRightFunc isSpace (s.dropWhile isSpace)

/-- Go `strings.Split s sep` for a separator of one character: the pieces
between the separators, one more than there are separators. -/
def splitSep (sep : Char) : GoString → List GoString
  | [] => [[]]
  | c :: cs =>
    if c = sep then [] :: splitSep sep cs
    else match splitSep sep cs with
      | [] => [[c]]
      | l :: ls => (c :: l) :: ls

/-- Go `strings.Join l sep` for a separator of one character. -/
def joinSep (sep : Char) : List GoString → GoString
  | [] => []
  | [a] => a
  | a :: b :: l => a ++ sep :: joinSep sep (b :: l)

/-- The text `fmt` prints for a `[]string` under `%v` or `%s`. -/
def fmtStrings (l : List GoString) : GoString := '[' :: joinSep ' ' l ++ [']']

/-- Length of a string in bytes (UTF-8). -/
def byteLen : GoString → Nat
  | [] => 0
  | c :: cs => c.utf8Size + byteLen cs

/-! ## Errors -/

/-- Go `error` values that the package handles. -/
inductive GoError where
  /-- an error value made outside the package (`os/exec`, `encoding/json`) -/
  | process (msg : GoString)
  /-- `errors.New msg` -/
  | new (msg : GoString)
  /-- `errors.Wrap cause msg` -/
  | wrap (cause : GoError) (msg : GoString)
  /-- `context.DeadlineExceeded` -/
  | deadlineExceeded
  /-- `context.Canceled` -/
  | canceled
  deriving DecidableEq, Repr

/-- The method `Error()`. -/
def GoError.Error : GoError → GoString
  | .process m => m
  | .new m => m
  | .wrap c m => m ++ (": " : GoString) ++ c.Error
  | .deadlineExceeded => "context deadline exceeded"
  | .canceled => "context canceled"

/-- `errors.Cause` of github.com/pkg/errors: the innermost wrapped error. -/
def GoError.Cause : GoError → GoError
  | .wrap c _ => c.Cause
  | e => e

/-! ## The subprocess -/

/-- What `ctx.Err()` returns. -/
inductive CtxErr where
  | none
  | deadlineExceeded
  | canceled
  deriving DecidableEq, Repr

/-- The command `execGitCmd` builds: `git` with `args`, run in `dir` under
the environment `env`. -/
structure Call where
  dir : GoString
  env : List GoString
  args : List GoString
  deriving DecidableEq, Repr

/-- What is observed once `c.Run()` has returned: its error (`none` for exit
status zero), the two output streams and `ctx.Err()`. -/
structure ProcResult where
  runErr : Option GoError
  stdout : GoString
  stderr : GoString
  ctxErr : CtxErr
  deriving DecidableEq, Repr

/-- One issued subprocess together with what `execGitCmd` returned for it. -/
structure Entry where
  call : Call
  result : ProcResult
  err : Option GoError
  deriving DecidableEq, Repr

/-- The history of issued subprocesses, oldest first. -/
abbrev Trace := List Entry

/-- The environment of the program: the outcome of a subprocess, which may
depend on everything issued before it. -/
abbrev Subprocess := Trace → Call → ProcResult

/-- The token limit of `bufio.Scanner` (`bufio.MaxScanTokenSize`). -/
def maxScanTokenSize : Nat := 64 * 1024

/-- Go `bufio.dropCR`. -/
def dropCR (s : GoString) : GoString :=
  match s.reverse with
  | '\r' :: r => r.reverse
  | _ => s

/-- The pieces of the input that end in a newline, then the rest when it is
not empty. -/
def rawLines (s : GoString) : List GoString :=
  let ps := splitSep '\n' s
  if ps.getLast? = some [] then ps.dropLast else ps

/-- The tokens `sc.Scan()` / `sc.Text()` yield for a `bufio.Scanner` with the
default split function (`bufio.ScanLines`) and the default buffer: the lines
without their terminator, up to the first line that does not fit the
buffer. -/
def scanLines (s : GoString) : List GoString :=
  ((rawLines s).takeWhile (fun l => decide (byteLen l < maxScanTokenSize))).map dropCR

/-- The loop of `findErrorMessage` over the tokens of the scanner. -/
def findErrorMessageLoop : List GoString → GoString
  | [] => []
  | t :: ts =>
    if stringsHasPrefix t "fatal: " then t
    else if stringsHasPrefix t "ERROR fatal: " then t
    else if stringsHasPrefix t "error:" then stringsTrim t "error: "
    else findErrorMessageLoop ts

/-- `findErrorMessage` (operations.go). -/
def findErrorMessage (output : GoString) : GoString :=
  findErrorMessageLoop (scanLines output)

/-- `env` (operations.go). -/
def env : List GoString := [("GIT_TERMINAL_PROMPT=0" : GoString)]

/-- The value `execGitCmd` returns, from the outcome of `c.Run()`. -/
def execGitCmdErr (args : List GoString) (r : ProcResult) : Option GoError :=
  let err : Option GoError :=
    match r.runErr with
    | some e =>
      let msg := findErrorMessage r.stderr
      if msg ≠ [] then some (.new msg) else some e
    | none => none
  if r.ctxErr = .deadlineExceeded then
    some (.wrap .deadlineExceeded
      (("running git command: " : GoString) ++ ("git" : GoString) ++ ' ' :: fmtStrings args))
  else if r.ctxErr = .canceled then
    some (.wrap .canceled
      (("context was unexpectedly cancelled when running git command: " : GoString) ++
        ("git" : GoString) ++ ' ' :: fmtStrings args))
  else err

/-- The subprocess `execGitCmd` issues for `git args` in `dir` after the
history `tr`, with its outcome and the error `execGitCmd` makes of it. -/
def issue (sub : Subprocess) (dir : GoString) (args : List GoString) (tr : Trace) : Entry :=
  let call : Call := { dir := dir, env := env, args := args }
  let r := sub tr call
  { call := call, result := r, err := execGitCmdErr args r }

/-- `execGitCmd` (operations.go): issue `git args` in `dir`, record it, and
return the error together with the captured standard output (which a caller
that passes a nil writer ignores). -/
def execGitCmd (sub : Subprocess) (dir : GoString) (args : List GoString) (tr : Trace) :
    (Option GoError × GoString) × Trace :=
  let e := issue sub dir args tr
  ((e.err, e.result.stdout), tr ++ [e])

/-- A subprocess of the history is a `git commit`. -/
def Entry.isCommit (e : Entry) : Prop := e.call.args.head? = some ("commit" : GoString)

/-- A subprocess of the history is a `git push`. -/
def Entry.isPush (e : Entry) : Prop := e.call.args.head? = some ("push" : GoString)

/-- A subprocess of the history is a `git notes`. -/
def Entry.isNote (e : Entry) : Prop := e.call.args.head? = some ("notes" : GoString)

instance (e : Entry) : Decidable e.isCommit := by unfold Entry.isCommit; infer_instance
instance (e : Entry) : Decidable e.isPush := by unfold Entry.isPush; infer_instance
instance (e : Entry) : Decidable e.isNote := by unfold Entry.isNote; infer_instance

/-! ## Paths (`path/filepath`, Unix) -/

/-- The element pass of `filepath.Clean`: `st` holds the elements kept so
far, the last one first.  Empty elements and `.` are dropped, `..` removes
the element before it, is dropped at the root, and is kept at the start of a
path that is not rooted. -/
def cleanElems (rooted : Bool) : List GoString → List GoString → List GoString
  | st, [] => st.reverse
  | st, e :: es =>
    if e = [] ∨ e = ['.'] then cleanElems rooted st es
    else if e = ['.', '.'] then
      match st with
      | top :: rest =>
        if top = ['.', '.'] then cleanElems rooted (e :: st) es
        else cleanElems rooted rest es
      | [] => if rooted then cleanElems rooted [] es else cleanElems rooted [e] es
    else cleanElems rooted (e :: st) es

/-- Go `filepath.Clean`. -/
def filepathClean (path : GoString) : GoString :=
  if path = [] then ['.']
  else
    let rooted := path.head? = some '/'
    let body := joinSep '/' (cleanElems rooted [] (splitSep '/' path))
    let out := if rooted then '/' :: body else body
    if out = [] then ['.'] else out

/-- Go `filepath.Join a b`. -/
def filepathJoin (a b : GoString) : GoString :=
  if a ≠ [] then filepathClean (a ++ '/' :: b)
  else if b ≠ [] then filepathClean b
  else []

/-- Go `filepath.Base`. -/
def filepathBase (path : GoString) : GoString :=
  if path = [] then ['.']
  else
    let p := trimRightFunc (fun c => c == '/') path
    let p := (p.reverse.takeWhile (fun c => c != '/')).reverse
    if p = [] then ['/'] else p

/-! ## Data (working.go) -/

/-- `Config` (working.go). -/
structure Config where
  Branch : GoString
  Path : GoString
  SyncTag : GoString
  NotesRef : GoString
  UserName : GoString
  UserEmail : GoString
  SetAuthor : Bool
  SkipMessage : GoString
  DevOpsTag : GoString
  GitUrl : GoString
  GitPollInterval : Int
  deriving DecidableEq, Repr

/-- Modelled from the spec: the type `Remote` is declared outside the two
files; it describes the upstream repository and the code reads its `URL`. -/
structure Remote where
  URL : GoString
  deriving DecidableEq, Repr

/-- `Checkout` (working.go). -/
structure Checkout where
  dir : GoString
  config : Config
  upstream : Remote
  realNotesRef : GoString
  deriving DecidableEq, Repr

/-- `Commit` (working.go). -/
structure Commit where
  Revision : GoString
  Message : GoString
  deriving DecidableEq, Repr

/-- `CommitAction` (working.go). -/
structure CommitAction where
  Author : GoString
  Message : GoString
  deriving DecidableEq, Repr

/-- The declarations of package `git` that the two files use and that are
made elsewhere in the package: the sentinel `ErrNoChanges`, the constructor
`PushError` and the constant `CheckPushTag`. -/
structure Package where
  ErrNoChanges : GoError
  PushError : GoString → GoError → GoError
  CheckPushTag : GoString

/-- `encoding/json` at the type of the notes: `json.Marshal` and
`json.NewDecoder(out).Decode`. -/
structure Json (ν : Type) where
  Marshal : ν → Except GoError GoString
  Decode : GoString → Except GoError ν

/-! ## Operations (operations.go)

Each operation takes the history and returns its Go results paired with the
extended history; `r.1.1` is the error of an `execGitCmd` result `r`, `r.1.2`
the captured output and `r.2` the history. -/

/-- `clone` (operations.go). -/
def clone (sub : Subprocess) (workingDir repoURL repoBranch : GoString) (tr : Trace) :
    (GoString × Option GoError) × Trace :=
  let repoPath := workingDir
  let args : List GoString := [("clone" : GoString)]
  let args := if repoBranch ≠ [] then args ++ [("--branch" : GoString), repoBranch] else args
  let args := args ++ [repoURL, repoPath]
  let r := execGitCmd sub workingDir args tr
  match r.1.1 with
  | some err => (([], some (.wrap err "git clone")), r.2)
  | none => ((repoPath, none), r.2)

/-- `mirror` (operations.go). -/
def mirror (sub : Subprocess) (workingDir repoURL : GoString) (tr : Trace) :
    (GoString × Option GoError) × Trace :=
  let repoPath := workingDir
  let args : List GoString := [("clone" : GoString), ("--mirror" : GoString)]
  let args := args ++ [repoURL, repoPath]
  let r := execGitCmd sub workingDir args tr
  match r.1.1 with
  | some err => (([], some (.wrap err "git clone --mirror")), r.2)
  | none => ((repoPath, none), r.2)

/-- `checkPush` (operations.go). -/
def checkPush (pkg : Package) (sub : Subprocess) (workingDir upstream : GoString)
    (tr : Trace) : Option GoError × Trace :=
  let r1 := execGitCmd sub workingDir
    [("tag" : GoString), ("--force" : GoString), pkg.CheckPushTag] tr
  match r1.1.1 with
  | some err => (some (.wrap err "tag for write check"), r1.2)
  | none =>
    let r2 := execGitCmd sub workingDir
      [("push" : GoString), ("--force" : GoString), upstream, ("tag" : GoString),
        pkg.CheckPushTag] r1.2
    match r2.1.1 with
    | some err => (some (.wrap err "attempt to push tag"), r2.2)
    | none =>
      let r3 := execGitCmd sub workingDir
        [("push" : GoString), ("--delete" : GoString), upstream, ("tag" : GoString),
          pkg.CheckPushTag] r2.2
      match r3.1.1 with
      | some err => (some err, r3.2)
      | none => (none, r3.2)

/-- The arguments `commit` passes to `execGitCmd`, for either form of the
commit. -/
def commitArgs (commitAction : CommitAction) : List GoString :=
  let commitAuthor := commitAction.Author
  if commitAuthor ≠ [] then
    [("commit" : GoString), ("--no-verify" : GoString), ("-a" : GoString),
      ("--author" : GoString), commitAuthor, ("-m" : GoString), commitAction.Message]
  else
    [("commit" : GoString), ("--no-verify" : GoString), ("-a" : GoString),
      ("-m" : GoString), commitAction.Message]

/-- `commit` (operations.go). -/
def commit (sub : Subprocess) (workingDir : GoString) (commitAction : CommitAction)
    (tr : Trace) : Option GoError × Trace :=
  let commitAuthor := commitAction.Author
  if commitAuthor ≠ [] then
    let r := execGitCmd sub workingDir
      [("commit" : GoString), ("--no-verify" : GoString), ("-a" : GoString),
        ("--author" : GoString), commitAuthor, ("-m" : GoString), commitAction.Message] tr
    match r.1.1 with
    | some err => (some (.wrap err "git commit"), r.2)
    | none => (none, r.2)
  else
    let r := execGitCmd sub workingDir
      [("commit" : GoString), ("--no-verify" : GoString), ("-a" : GoString),
        ("-m" : GoString), commitAction.Message] tr
    match r.1.1 with
    | some err => (some (.wrap err "git commit"), r.2)
    | none => (none, r.2)

/-- `push` (operations.go). -/
def push (sub : Subprocess) (workingDir upstream : GoString) (refs : List GoString)
    (tr : Trace) : Option GoError × Trace :=
  let args := [("push" : GoString), upstream] ++ refs
  let r := execGitCmd sub workingDir args tr
  match r.1.1 with
  | some err =>
    (some (.wrap err (("git push " : GoString) ++ upstream ++ ' ' :: fmtStrings refs)), r.2)
  | none => (none, r.2)

/-- `fetch` (operations.go). -/
def fetch (sub : Subprocess) (workingDir upstream : GoString) (refspec : List GoString)
    (tr : Trace) : Option GoError × Trace :=
  let args := [("fetch" : GoString), ("--tags" : GoString), upstream] ++ refspec
  let r := execGitCmd sub workingDir args tr
  match r.1.1 with
  | some err =>
    if !stringsContains err.Error "Couldn't find remote ref" then
      (some (.wrap err
        (("git fetch --tags " : GoString) ++ upstream ++ ' ' :: fmtStrings refspec)), r.2)
    else (none, r.2)
  | none => (none, r.2)

/-- `refExists` (operations.go). -/
def refExists (sub : Subprocess) (workingDir ref : GoString) (tr : Trace) :
    (Bool × Option GoError) × Trace :=
  let r := execGitCmd sub workingDir [("rev-list" : GoString), ref] tr
  match r.1.1 with
  | some err =>
    if stringsContains err.Error "unknown revision" then ((false, none), r.2)
    else ((false, some err), r.2)
  | none => ((true, none), r.2)

/-- `getNotesRef` (operations.go). -/
def getNotesRef (sub : Subprocess) (workingDir ref : GoString) (tr : Trace) :
    (GoString × Option GoError) × Trace :=
  let r := execGitCmd sub workingDir
    [("notes" : GoString), ("--ref" : GoString), ref, ("get-ref" : GoString)] tr
  match r.1.1 with
  | some err => (([], some err), r.2)
  | none => ((trimSpace r.1.2, none), r.2)

/-- `addNote` (operations.go). -/
def addNote {ν : Type} (js : Json ν) (sub : Subprocess) (workingDir rev notesRef : GoString)
    (note : ν) (tr : Trace) : Option GoError × Trace :=
  match js.Marshal note with
  | .error err => (some err, tr)
  | .ok b =>
    let r := execGitCmd sub workingDir
      [("notes" : GoString), ("--ref" : GoString), notesRef, ("add" : GoString),
        ("-m" : GoString), b, rev] tr
    match r.1.1 with
    | some err => (some err, r.2)
    | none => (none, r.2)

/-- What `getNote` hands back: `ok`, `err`, and the value decoded into the
caller's `note` when there is one. -/
structure NoteResult (ν : Type) where
  ok : Bool
  err : Option GoError
  note : Option ν

/-- `getNote` (operations.go); `toLower` is Go `strings.ToLower`. -/
def getNote {ν : Type} (js : Json ν) (toLower : GoString → GoString) (sub : Subprocess)
    (workingDir notesRef rev : GoString) (tr : Trace) : NoteResult ν × Trace :=
  let r := execGitCmd sub workingDir
    [("notes" : GoString), ("--ref" : GoString), notesRef, ("show" : GoString), rev] tr
  match r.1.1 with
  | some err =>
    if stringsContains (toLower err.Error) "no note found for object" then
      ({ ok := false, err := none, note := none }, r.2)
    else ({ ok := false, err := some err, note := none }, r.2)
  | none =>
    match js.Decode r.1.2 with
    | .error err => ({ ok := false, err := some err, note := none }, r.2)
    | .ok n => ({ ok := true, err := none, note := some n }, r.2)

/-- `refRevision` (operations.go). -/
def refRevision (sub : Subprocess) (path ref : GoString) (tr : Trace) :
    (GoString × Option GoError) × Trace :=
  let r := execGitCmd sub path
    [("rev-list" : GoString), ("--max-count" : GoString), ("1" : GoString), ref] tr
  match r.1.1 with
  | some err => (([], some err), r.2)
  | none => ((trimSpace r.1.2, none), r.2)

/-- `splitList` (operations.go). -/
def splitList (s : GoString) : List GoString :=
  let outStr := trimSpace s
  if outStr = [] then [] else splitSep '\n' outStr

/-- `moveTagAndPush` (operations.go). -/
def moveTagAndPush (sub : Subprocess) (path tag ref msg upstream : GoString) (tr : Trace) :
    Option GoError × Trace :=
  let r1 := execGitCmd sub path
    [("tag" : GoString), ("--force" : GoString), ("-a" : GoString), ("-m" : GoString),
      msg, tag, ref] tr
  match r1.1.1 with
  | some err => (some (.wrap err (("moving tag " : GoString) ++ tag)), r1.2)
  | none =>
    let r2 := execGitCmd sub path
      [("push" : GoString), ("--force" : GoString), upstream, ("tag" : GoString), tag] r1.2
    match r2.1.1 with
    | some err => (some (.wrap err "pushing tag to origin"), r2.2)
    | none => (none, r2.2)

/-- `changedFiles` (operations.go). -/
def changedFiles (sub : Subprocess) (path subPath ref : GoString) (tr : Trace) :
    (List GoString × Option GoError) × Trace :=
  if subPath.head? = some '/' then
    (([], some (.new "git subdirectory should not have leading forward slash")), tr)
  else
    let r := execGitCmd sub path
      [("diff" : GoString), ("--name-only" : GoString), ("--diff-filter=ACMRT" : GoString),
        ref, ("--" : GoString), subPath] tr
    match r.1.1 with
    | some err => (([], some err), r.2)
    | none => ((splitList r.1.2, none), r.2)

/-- `check` (operations.go). -/
def check (sub : Subprocess) (workingDir subdir : GoString) (tr : Trace) : Bool × Trace :=
  let r := execGitCmd sub workingDir
    [("diff" : GoString), ("--quiet" : GoString), ("--" : GoString), subdir] tr
  (r.1.1.isSome, r.2)

/-! ## Checkout (working.go) -/

/-- `Checkout.CommitAndPush` (working.go). -/
def Checkout.CommitAndPush {ν : Type} (pkg : Package) (js : Json ν) (sub : Subprocess)
    (c : Checkout) (commitAction : CommitAction) (note : Option ν) (tr : Trace) :
    Option GoError × Trace :=
  let chk := check sub c.dir c.config.Path tr
  if !chk.1 then (some pkg.ErrNoChanges, chk.2)
  else
    let commitAction : CommitAction :=
      { commitAction with Message := commitAction.Message ++ c.config.SkipMessage }
    let cm := commit sub c.dir commitAction chk.2
    match cm.1 with
    | some err => (some err, cm.2)
    | none =>
      let nt : Option GoError × Trace :=
        match note with
        | some n =>
          let rv := refRevision sub c.dir "HEAD" cm.2
          match rv.1.2 with
          | some err => (some err, rv.2)
          | none => addNote js sub c.dir rv.1.1 c.config.NotesRef n rv.2
        | none => (none, cm.2)
      match nt.1 with
      | some err => (some err, nt.2)
      | none =>
        let refs := [c.config.Branch]
        let ex := refExists sub c.dir c.realNotesRef nt.2
        let ok := ex.1.1
        let err := ex.1.2
        let decided : Except GoError (List GoString) :=
          if ok then .ok (refs ++ [c.realNotesRef])
          else match err with
            | some e => .error e
            | none => .ok refs
        match decided with
        | .error e => (some e, ex.2)
        | .ok refs =>
          let ps := push sub c.dir c.upstream.URL refs ex.2
          match ps.1 with
          | some err => (some (pkg.PushError c.upstream.URL err), ps.2)
          | none => (none, ps.2)

/-- `Checkout.GetNote` (working.go). -/
def Checkout.GetNote {ν : Type} (js : Json ν) (toLower : GoString → GoString)
    (sub : Subprocess) (c : Checkout) (rev : GoString) (tr : Trace) : NoteResult ν × Trace :=
  getNote js toLower sub c.dir c.realNotesRef rev tr

/-- `Checkout.HeadRevision` (working.go). -/
def Checkout.HeadRevision (sub : Subprocess) (c : Checkout) (tr : Trace) :
    (GoString × Option GoError) × Trace :=
  refRevision sub c.dir "HEAD" tr

/-- `Checkout.MoveSyncTagAndPush` (working.go). -/
def Checkout.MoveSyncTagAndPush (sub : Subprocess) (c : Checkout) (ref msg : GoString)
    (tr : Trace) : Option GoError × Trace :=
  moveTagAndPush sub c.dir c.config.SyncTag ref msg c.upstream.URL tr

/-- `Checkout.ChangedFiles` (working.go): the absolute paths, the relative
paths and the error. -/
def Checkout.ChangedFiles (sub : Subprocess) (c : Checkout) (ref : GoString) (tr : Trace) :
    (List GoString × List GoString × Option GoError) × Trace :=
  let cf := changedFiles sub c.dir c.config.Path ref tr
  let list := cf.1.1
  let err := cf.1.2
  let absolutePath : List GoString :=
    if err = none then list.map (fun file => filepathJoin c.dir file)
    else List.replicate list.length []
  ((absolutePath, list, err), cf.2)

/-! ## Clone (working.go) and `config` (operations.go) -/

/-- The loop of `config` over the settings in the order the map yields
them. -/
def configLoop (sub : Subprocess) (workingDir : GoString) :
    List (GoString × GoString) → Trace → Option GoError × Trace
  | [], tr => (none, tr)
  | (k, v) :: rest, tr =>
    let r := execGitCmd sub workingDir [("config" : GoString), k, v] tr
    match r.1.1 with
    | some err => (some (.wrap err "setting git config"), r.2)
    | none => configLoop sub workingDir rest r.2

/-- `config` (operations.go).  Go leaves the order in which `range` visits
the two entries of the map open; `nameFirst` is the order the run takes. -/
def config (sub : Subprocess) (nameFirst : Bool) (workingDir user email : GoString)
    (tr : Trace) : Option GoError × Trace :=
  let entries : List (GoString × GoString) :=
    if nameFirst then [(("user.name" : GoString), user), (("user.email" : GoString), email)]
    else [(("user.email" : GoString), email), (("user.name" : GoString), user)]
  configLoop sub workingDir entries tr

/-- The type `Repo` is declared outside the two files.  `Clone` calls its
methods `Origin` and `workingClone`; both are taken as they are given:
`workingClone` may issue subprocesses and returns the directory and an
error. -/
structure Repo where
  Origin : Remote
  workingClone : Subprocess → GoString → Trace → (GoString × Option GoError) × Trace

/-- What `Repo.Clone` hands back, the `*Checkout` (`none` for nil) and the
error, together with the directories it passed to `os.RemoveAll`, in
order. -/
structure CloneResult where
  checkout : Option Checkout
  err : Option GoError
  removed : List GoString
  deriving DecidableEq, Repr

/-- `Repo.Clone` (working.go). -/
def Repo.Clone (sub : Subprocess) (nameFirst : Bool) (r : Repo) (conf : Config) (tr : Trace) :
    CloneResult × Trace :=
  let upstream := r.Origin
  let wc := r.workingClone sub conf.DevOpsTag tr
  let repoDir := wc.1.1
  match wc.1.2 with
  | some err => ({ checkout := none, err := some err, removed := [] }, wc.2)
  | none =>
    let cf := config sub nameFirst repoDir conf.UserName conf.UserEmail wc.2
    match cf.1 with
    | some err => ({ checkout := none, err := some err, removed := [repoDir] }, cf.2)
    | none =>
      let nr := getNotesRef sub repoDir conf.NotesRef cf.2
      let realNotesRef := nr.1.1
      match nr.1.2 with
      | some err => ({ checkout := none, err := some err, removed := [repoDir] }, nr.2)
      | none =>
        ({ checkout := some { dir := repoDir, upstream := upstream,
                              realNotesRef := realNotesRef, config := conf },
           err := none, removed := [] }, nr.2)

/-! ## Parsing the output of git (operations.go) -/

/-- A run-time panic of the Go program. -/
inductive Panic where
  /-- index out of range `[index]` with length `length` -/
  | indexOutOfRange (index length : Nat)
  deriving DecidableEq, Repr

/-- The Go index expression `l[i]`. -/
def index {α : Type} (l : List α) (i : Nat) : Except Panic α :=
  match l.get? i with
  | some a => .ok a
  | none => .error (.indexOutOfRange i l.length)

/-- Go `strings.SplitN s sep 2` for a separator of one character: the text
before the first separator and the text after it, or the text alone when it
holds no separator. -/
def stringsSplitN2 (sep : Char) (s : GoString) : List GoString :=
  match s.dropWhile (fun c => c != sep) with
  | [] => [s]
  | _ :: rest => [s.takeWhile (fun c => c != sep), rest]

/-- The scan of `strings.Fields`: `cur` holds the field being read, last
character first. -/
def fieldsAux : GoString → GoString → List GoString
  | [], cur => if cur = [] then [] else [cur.reverse]
  | c :: cs, cur =>
    if isSpace c then
      if cur = [] then fieldsAux cs [] else cur.reverse :: fieldsAux cs []
    else fieldsAux cs (c :: cur)

/-- Go `strings.Fields`: the maximal runs of characters that are not white
space. -/
def stringsFields (s : GoString) : List GoString := fieldsAux s []

/-- The loop of `splitLog` over the lines. -/
def splitLogLoop : List GoString → Except Panic (List Commit)
  | [] => .ok []
  | m :: ms =>
    let revAndMessage := stringsSplitN2 ' ' m
    match index revAndMessage 0 with
    | .error p => .error p
    | .ok rev =>
      match index revAndMessage 1 with
      | .error p => .error p
      | .ok msg =>
        match splitLogLoop ms with
        | .error p => .error p
        | .ok rest => .ok ({ Revision := rev, Message := msg } :: rest)

/-- `splitLog` (operations.go): the commits and the error, which is always
nil, unless the function panics. -/
def splitLog (s : GoString) : Except Panic (List Commit × Option GoError) :=
  let lines := splitList s
  match splitLogLoop lines with
  | .error p => .error p
  | .ok commits => .ok (commits, none)

/-- `onelinelog` (operations.go). -/
def onelinelog (sub : Subprocess) (path refspec subdir : GoString) (tr : Trace) :
    Except Panic (List Commit × Option GoError) × Trace :=
  if subdir ≠ [] then
    let r := execGitCmd sub path
      [("log" : GoString), ("--oneline" : GoString), ("--no-abbrev-commit" : GoString),
        refspec, ("--" : GoString), subdir] tr
    match r.1.1 with
    | some err => (.ok ([], some err), r.2)
    | none => (splitLog r.1.2, r.2)
  else
    let r := execGitCmd sub path
      [("log" : GoString), ("--oneline" : GoString), ("--no-abbrev-commit" : GoString),
        refspec] tr
    match r.1.1 with
    | some err => (.ok ([], some err), r.2)
    | none => (splitLog r.1.2, r.2)

/-- The assignment `result[key] = struct{}{}` on a map kept as the list of
its keys, without repetition. -/
def mapSet (result : List GoString) (key : GoString) : List GoString :=
  if key ∈ result then result else key :: result

/-- The loop of `noteRevList` over the lines; the map `result` is kept as
the list of its keys. -/
def noteRevLoop : List GoString → List GoString → Except Panic (List GoString)
  | [], result => .ok result
  | l :: ls, result =>
    let split := stringsFields l
    if split.length > 0 then
      match index split 1 with
      | .error p => .error p
      | .ok rev => noteRevLoop ls (mapSet result rev)
    else noteRevLoop ls result

/-- `noteRevList` (operations.go): the keys of the map and the error, unless
the function panics. -/
def noteRevList (sub : Subprocess) (workingDir notesRef : GoString) (tr : Trace) :
    Except Panic (List GoString × Option GoError) × Trace :=
  let r := execGitCmd sub workingDir
    [("notes" : GoString), ("--ref" : GoString), notesRef, ("list" : GoString)] tr
  match r.1.1 with
  | some err => (.ok ([], some err), r.2)
  | none =>
    let noteList := splitList r.1.2
    match noteRevLoop noteList [] with
    | .error p => (.error p, r.2)
    | .ok result => (.ok (result, none), r.2)

/-- `Checkout.NoteRevList` (working.go). -/
def Checkout.NoteRevList (sub : Subprocess) (c : Checkout) (tr : Trace) :
    Except Panic (List GoString × Option GoError) × Trace :=
  noteRevList sub c.dir c.realNotesRef tr

end Git

/-! # Package `controllers` (pkg/polaris/validator/controllers/interface.go) -/

namespace Polaris

open Git

/-- The type `config.SupportedController` is declared outside the file: an
integer type with one constant for each case of the switch in
`LoadControllersByKind`; `other` stands for every other value. -/
inductive SupportedController where
  | Deployments
  | StatefulSets
  | DaemonSets
  | Jobs
  | CronJobs
  | ReplicationControllers
  | other (n : Int)
  deriving DecidableEq, Repr

/-- The fields of `kube.ResourceProvider` that `LoadControllersByKind` reads,
over the six resource types of the Kubernetes API. -/
structure ResourceProvider (D S DS J CJ RC : Type) where
  Deployments : List D
  StatefulSets : List S
  DaemonSets : List DS
  Jobs : List J
  CronJobs : List CJ
  ReplicationControllers : List RC

/-- The constructors of the six controllers, declared in other files of the
package, each giving a value of the interface type `I`, and the `String`
method of `config.SupportedController`. -/
structure Constructors (D S DS J CJ RC I : Type) where
  NewDeploymentController : D → I
  NewStatefulSetController : S → I
  NewDaemonSetController : DS → I
  NewJobController : J → I
  NewCronJobController : CJ → I
  NewReplicationControllerController : RC → I
  kindString : SupportedController → GoString

/-- The loop `for _, x := range xs { interfaces = append(interfaces, f(x)) }`
started from `interfaces`. -/
def appendEach {α I : Type} (f : α → I) (xs : List α) (interfaces : List I) : List I :=
  xs.foldl (fun acc x => acc ++ [f x]) interfaces

/-- `LoadControllersByKind` (interface.go): the list (`none` for nil) and the
error. -/
def LoadControllersByKind {D S DS J CJ RC I : Type} (new : Constructors D S DS J CJ RC I)
    (controllerKind : SupportedController) (kubeResources : ResourceProvider D S DS J CJ RC) :
    Option (List I) × Option GoError :=
  let interfaces : List I := []
  let interfaces : List I :=
    match controllerKind with
    | .Deployments => appendEach new.NewDeploymentController kubeResources.Deployments interfaces
    | .StatefulSets =>
      appendEach new.NewStatefulSetController kubeResources.StatefulSets interfaces
    | .DaemonSets => appendEach new.NewDaemonSetController kubeResources.DaemonSets interfaces
    | .Jobs => appendEach new.NewJobController kubeResources.Jobs interfaces
    | .CronJobs => appendEach new.NewCronJobController kubeResources.CronJobs interfaces
    | .ReplicationControllers =>
      appendEach new.NewReplicationControllerController kubeResources.ReplicationControllers
        interfaces
    | .other _ => interfaces
  if interfaces.length > 0 then (some interfaces, none)
  else
    (none, some (.new (("Controller type (" : GoString) ++ new.kindString controllerKind ++
      (") does not have a generator" : GoString))))

/-- The controllers `LoadControllersByKind` is to return, stated apart from
its code: one for each resource of the requested kind, made by the
constructor of that kind, in the provider's order; none for a kind outside
the switch. -/
def controllersOfKind {D S DS J CJ RC I : Type} (new : Constructors D S DS J CJ RC I)
    (controllerKind : SupportedController) (kubeResources : ResourceProvider D S DS J CJ RC) :
    List I :=
  match controllerKind with
  | .Deployments => kubeResources.Deployments.map new.NewDeploymentController
  | .StatefulSets => kubeResources.StatefulSets.map new.NewStatefulSetController
  | .DaemonSets => kubeResources.DaemonSets.map new.NewDaemonSetController
  | .Jobs => kubeResources.Jobs.map new.NewJobController
  | .CronJobs => kubeResources.CronJobs.map new.NewCronJobController
  | .ReplicationControllers =>
    kubeResources.ReplicationControllers.map new.NewReplicationControllerController
  | .other _ => []

/-- The error `LoadControllersByKind` returns for a kind. -/
def noGenerator {D S DS J CJ RC I : Type} (new : Constructors D S DS J CJ RC I)
    (controllerKind : SupportedController) : GoError :=
  .new (("Controller type (" : GoString) ++ new.kindString controllerKind ++
    (") does not have a generator" : GoString))

end Polaris

namespace Git

/-! ## Vocabulary of the statements -/

/-- A line begins with one of the markers `findErrorMessage` looks for. -/
def hasMarker (t : GoString) : Bool :=
  stringsHasPrefix t "fatal: " || stringsHasPrefix t "ERROR fatal: " ||
    stringsHasPrefix t "error:"

/-- The error `execGitCmd` returns for `git args` when `ctx.Err()` is the
deadline. -/
def deadlineError (args : List GoString) : GoError :=
  .wrap .deadlineExceeded (("running git command: git " : GoString) ++ fmtStrings args)

/-! ## Sample inputs -/

/-- A sample of the package-level declarations. -/
def samplePackage : Package :=
  { ErrNoChanges := .new "no changes made in repo"
    PushError := fun url err => .wrap err (("pushing to " : GoString) ++ url)
    CheckPushTag := "flux-write-check" }

/-- A codec for notes that are already JSON text. -/
def sampleJson : Json GoString :=
  { Marshal := fun n => .ok n
    Decode := fun s => .ok s }

/-- A sample configuration, the one of the example scenario. -/
def sampleConfig : Config :=
  { Branch := "main", Path := "manifests", SyncTag := "sync", NotesRef := "choerodon",
    UserName := "agent", UserEmail := "agent@example.com", SetAuthor := false,
    SkipMessage := " [ci skip]", DevOpsTag := "devops", GitUrl := "git@example.com:repo.git",
    GitPollInterval := 5 }

/-- A sample checkout. -/
def sampleCheckout : Checkout :=
  { dir := "/tmp/clone", config := sampleConfig,
    upstream := { URL := "git@example.com:repo.git" },
    realNotesRef := "refs/notes/choerodon" }

/-- A sample commit action. -/
def sampleAction : CommitAction := { Author := [], Message := "update image" }

/-- An environment in which every subprocess exits with status zero and
prints nothing. -/
def quietSub : Subprocess :=
  fun _ _ => { runErr := none, stdout := [], stderr := [], ctxErr := .none }

/-- An environment with local changes: `git diff --quiet` exits with status
one, every other subprocess exits with status zero and prints nothing. -/
def dirtySub : Subprocess :=
  fun _ call =>
    if call.args.take 2 = [("diff" : GoString), ("--quiet" : GoString)] then
      { runErr := some (.process "exit status 1"), stdout := [], stderr := [], ctxErr := .none }
    else { runErr := none, stdout := [], stderr := [], ctxErr := .none }

/-- An environment whose context has expired: a subprocess is not started,
`c.Run()` returns the context error, and `ctx.Err()` is the deadline. -/
def expiredSub : Subprocess :=
  fun _ _ =>
    { runErr := some .deadlineExceeded, stdout := [], stderr := [],
      ctxErr := .deadlineExceeded }

/-- The existence check of the notes ref as the sample checkout issues it in
an environment where it exits with status zero. -/
def sampleExistsEntry : Entry :=
  { call := { dir := "/tmp/clone", env := env,
              args := [("rev-list" : GoString), ("refs/notes/choerodon" : GoString)] },
    result := { runErr := none, stdout := [], stderr := [], ctxErr := .none },
    err := none }

/-- An ASCII stand-in for Go `strings.ToLower`, for sample evaluations. -/
def asciiToLower (s : GoString) : GoString := s.map Char.toLower

/-- An environment in which every subprocess exits with status zero and
prints the names of two manifests, as `git diff --name-only` does. -/
def diffSub : Subprocess :=
  fun _ _ =>
    { runErr := none, stdout := "manifests/app.yaml\nmanifests/svc.yaml\n", stderr := [],
      ctxErr := .none }

/-- An environment in which every subprocess exits with status zero and
prints one line that holds one field, a single object name. -/
def oneFieldSub : Subprocess :=
  fun _ _ =>
    { runErr := none, stdout := "5d6e7f8091a2b3c4d5e6f708192a3b4c5d6e7f80\n", stderr := [],
      ctxErr := .none }

/-- An environment in which every subprocess exits with status zero and
prints what `git notes list` prints for two notes: on each line the name of
the note object, then the name of the object it annotates. -/
def notesListSub : Subprocess :=
  fun _ _ =>
    { runErr := none,
      stdout := "7c9e1f0a3b5d7f9e1c3a5b7d9f1e3c5a7b9d1f3e 1a2b3c4d5e6f708192a3b4c5d6e7f8091a2b3c4d\n0b2d4f6a8c0e2a4c6e8a0c2e4a6c8e0a2c4e6a8c 5d6e7f8091a2b3c4d5e6f708192a3b4c5d6e7f80\n",
      stderr := [], ctxErr := .none }

/-- An environment in which every subprocess exits with status zero and
prints two log lines, the later commit with the subject `add x`, the earlier
one with an empty subject, as `git log --oneline` does. -/
def emptySubjectSub : Subprocess :=
  fun _ _ =>
    { runErr := none, stdout := "1a2b3c4 add x\n5d6e7f8 \n", stderr := [], ctxErr := .none }

/-! ## What each operation issues -/

theorem issue_args (sub : Subprocess) (d : GoString) (args : List GoString) (tr : Trace) :
    (issue sub d args tr).call.args = args := rfl

theorem issue_err (sub : Subprocess) (d : GoString) (args : List GoString) (tr : Trace) :
    (issue sub d args tr).err = execGitCmdErr args (issue sub d args tr).result := rfl

theorem check_eq (sub : Subprocess) (d s : GoString) (tr : Trace) :
    check sub d s tr =
      ((issue sub d [("diff" : GoString), ("--quiet" : GoString), ("--" : GoString), s]
          tr).err.isSome,
        tr ++ [issue sub d
          [("diff" : GoString), ("--quiet" : GoString), ("--" : GoString), s] tr]) := rfl

theorem commit_eq (sub : Subprocess) (d : GoString) (a : CommitAction) (tr : Trace) :
    commit sub d a tr =
      ((issue sub d (commitArgs a) tr).err.map
          (fun err => GoError.wrap err ("git commit" : GoString)),
        tr ++ [issue sub d (commitArgs a) tr]) := by
  unfold commit commitArgs execGitCmd
  by_cases h : a.Author = []
  · simp only [h, ne_eq, not_true_eq_false, ↓reduceIte]
    cases (issue sub d _ tr).err <;> rfl
  · simp only [h, ne_eq, not_false_eq_true, ↓reduceIte]
    cases (issue sub d _ tr).err <;> rfl

theorem push_eq (sub : Subprocess) (d upstream : GoString) (refs : List GoString)
    (tr : Trace) :
    push sub d upstream refs tr =
      ((issue sub d (("push" : GoString) :: upstream :: refs) tr).err.map
          (fun err => GoError.wrap err
            (("git push " : GoString) ++ upstream ++ ' ' :: fmtStrings refs)),
        tr ++ [issue sub d (("push" : GoString) :: upstream :: refs) tr]) := by
  unfold push execGitCmd
  simp only [List.cons_append, List.nil_append]
  cases (issue sub d _ tr).err <;> rfl

theorem refRevision_eq (sub : Subprocess) (d ref : GoString) (tr : Trace) :
    refRevision sub d ref tr =
      ((match (issue sub d
            [("rev-list" : GoString), ("--max-count" : GoString), ("1" : GoString), ref]
            tr).err with
        | some err => ([], some err)
        | none => (trimSpace (issue sub d
            [("rev-list" : GoString), ("--max-count" : GoString), ("1" : GoString), ref]
            tr).result.stdout, none)),
        tr ++ [issue sub d
          [("rev-list" : GoString), ("--max-count" : GoString), ("1" : GoString), ref]
          tr]) := by
  unfold refRevision execGitCmd
  dsimp only
  cases (issue sub d _ tr).err <;> rfl

theorem refExists_eq (sub : Subprocess) (d ref : GoString) (tr : Trace) :
    refExists sub d ref tr =
      ((match (issue sub d [("rev-list" : GoString), ref] tr).err with
        | some err =>
          if stringsContains err.Error ("unknown revision" : GoString) then (false, none)
          else (false, some err)
        | none => (true, none)),
        tr ++ [issue sub d [("rev-list" : GoString), ref] tr]) := by
  unfold refExists execGitCmd
  dsimp only
  cases (issue sub d _ tr).err with
  | none => rfl
  | some err =>
    by_cases h : stringsContains err.Error ("unknown revision" : GoString) = true
    · simp only [h, ↓reduceIte]
    · simp only [h, Bool.false_eq_true, ↓reduceIte]

theorem addNote_eq {ν : Type} (js : Json ν) (sub : Subprocess) (d rev notesRef : GoString)
    (n : ν) (tr : Trace) :
    addNote js sub d rev notesRef n tr =
      (match js.Marshal n with
        | .error err => (some err, tr)
        | .ok b =>
          ((issue sub d
              [("notes" : GoString), ("--ref" : GoString), notesRef, ("add" : GoString),
                ("-m" : GoString), b, rev] tr).err,
            tr ++ [issue sub d
              [("notes" : GoString), ("--ref" : GoString), notesRef, ("add" : GoString),
                ("-m" : GoString), b, rev] tr])) := by
  unfold addNote execGitCmd
  cases js.Marshal n with
  | error err => rfl
  | ok b =>
    dsimp only
    cases (issue sub d _ tr).err <;> rfl

/-- Case analysis of a run of `Checkout.CommitAndPush` from the empty history:
a property of the pair (returned error, issued subprocesses) holds for the run
as soon as it holds in each of the seven ways the run can end.  `nt` stands
for the subprocesses of the note step: none when `note` is nil, the head
revision lookup and the `notes add` otherwise.  The first two subprocesses
are given as the environment answers them. -/
theorem CommitAndPush_cases_issued {ν : Type} (pkg : Package) (js : Json ν) (sub : Subprocess)
    (c : Checkout) (a : CommitAction) (note : Option ν)
    (P : Option GoError × Trace → Prop)
    (hNoChanges : ∀ e1 : Entry,
      e1 = issue sub c.dir [("diff" : GoString), ("--quiet" : GoString), ("--" : GoString),
        c.config.Path] [] →
      e1.call.args = [("diff" : GoString), ("--quiet" : GoString), ("--" : GoString),
        c.config.Path] →
      e1.err = none → P (some pkg.ErrNoChanges, [e1]))
    (hCommit : ∀ (e1 e2 : Entry) (x1 x2 : GoError),
      e1 = issue sub c.dir [("diff" : GoString), ("--quiet" : GoString), ("--" : GoString),
        c.config.Path] [] →
      e1.call.args = [("diff" : GoString), ("--quiet" : GoString), ("--" : GoString),
        c.config.Path] →
      e1.err = some x1 →
      e2 = issue sub c.dir (commitArgs
        { Author := a.Author, Message := a.Message ++ c.config.SkipMessage }) [e1] →
      e2.call.args = commitArgs
        { Author := a.Author, Message := a.Message ++ c.config.SkipMessage } →
      e2.err = some x2 →
      P (some (.wrap x2 ("git commit" : GoString)), [e1, e2]))
    (hRev : ∀ (e1 e2 e3 : Entry) (x1 x3 : GoError) (n : ν),
      e1 = issue sub c.dir [("diff" : GoString), ("--quiet" : GoString), ("--" : GoString),
        c.config.Path] [] →
      e1.call.args = [("diff" : GoString), ("--quiet" : GoString), ("--" : GoString),
        c.config.Path] →
      e1.err = some x1 →
      e2 = issue sub c.dir (commitArgs
        { Author := a.Author, Message := a.Message ++ c.config.SkipMessage }) [e1] →
      e2.call.args = commitArgs
        { Author := a.Author, Message := a.Message ++ c.config.SkipMessage } →
      e2.err = none → note = some n →
      e3.call.args = [("rev-list" : GoString), ("--max-count" : GoString), ("1" : GoString),
        ("HEAD" : GoString)] →
      e3.err = some x3 →
      P (some x3, [e1, e2, e3]))
    (hMarshal : ∀ (e1 e2 e3 : Entry) (x1 x : GoError) (n : ν),
      e1 = issue sub c.dir [("diff" : GoString), ("--quiet" : GoString), ("--" : GoString),
        c.config.Path] [] →
      e1.call.args = [("diff" : GoString), ("--quiet" : GoString), ("--" : GoString),
        c.config.Path] →
      e1.err = some x1 →
      e2 = issue sub c.dir (commitArgs
        { Author := a.Author, Message := a.Message ++ c.config.SkipMessage }) [e1] →
      e2.call.args = commitArgs
        { Author := a.Author, Message := a.Message ++ c.config.SkipMessage } →
      e2.err = none → note = some n →
      e3.call.args = [("rev-list" : GoString), ("--max-count" : GoString), ("1" : GoString),
        ("HEAD" : GoString)] →
      e3.err = none → js.Marshal n = .error x →
      P (some x, [e1, e2, e3]))
    (hAdd : ∀ (e1 e2 e3 e4 : Entry) (x1 x4 : GoError) (n : ν) (b : GoString),
      e1 = issue sub c.dir [("diff" : GoString), ("--quiet" : GoString), ("--" : GoString),
        c.config.Path] [] →
      e1.call.args = [("diff" : GoString), ("--quiet" : GoString), ("--" : GoString),
        c.config.Path] →
      e1.err = some x1 →
      e2 = issue sub c.dir (commitArgs
        { Author := a.Author, Message := a.Message ++ c.config.SkipMessage }) [e1] →
      e2.call.args = commitArgs
        { Author := a.Author, Message := a.Message ++ c.config.SkipMessage } →
      e2.err = none → note = some n →
      e3.call.args = [("rev-list" : GoString), ("--max-count" : GoString), ("1" : GoString),
        ("HEAD" : GoString)] →
      e3.err = none → js.Marshal n = .ok b →
      e4.call.args = [("notes" : GoString), ("--ref" : GoString), c.config.NotesRef,
        ("add" : GoString), ("-m" : GoString), b, trimSpace e3.result.stdout] →
      e4.err = some x4 →
      P (some x4, [e1, e2, e3, e4]))
    (hExists : ∀ (e1 e2 e5 : Entry) (nt : List Entry) (x1 x5 : GoError),
      e1 = issue sub c.dir [("diff" : GoString), ("--quiet" : GoString), ("--" : GoString),
        c.config.Path] [] →
      e1.call.args = [("diff" : GoString), ("--quiet" : GoString), ("--" : GoString),
        c.config.Path] →
      e1.err = some x1 →
      e2 = issue sub c.dir (commitArgs
        { Author := a.Author, Message := a.Message ++ c.config.SkipMessage }) [e1] →
      e2.call.args = commitArgs
        { Author := a.Author, Message := a.Message ++ c.config.SkipMessage } →
      e2.err = none →
      ((note = none ∧ nt = []) ∨
        ∃ (n : ν) (b : GoString) (e3 e4 : Entry), note = some n ∧ js.Marshal n = .ok b ∧
          nt = [e3, e4] ∧
          e3.call.args = [("rev-list" : GoString), ("--max-count" : GoString),
            ("1" : GoString), ("HEAD" : GoString)] ∧
          e3.err = none ∧
          e4.call.args = [("notes" : GoString), ("--ref" : GoString), c.config.NotesRef,
            ("add" : GoString), ("-m" : GoString), b, trimSpace e3.result.stdout] ∧
          e4.err = none) →
      e5.call.args = [("rev-list" : GoString), c.realNotesRef] →
      e5.err = some x5 →
      stringsContains x5.Error ("unknown revision" : GoString) = false →
      P (some x5, e1 :: e2 :: (nt ++ [e5])))
    (hPush : ∀ (e1 e2 e5 e6 : Entry) (nt : List Entry) (x1 : GoError) (refs : List GoString),
      e1 = issue sub c.dir [("diff" : GoString), ("--quiet" : GoString), ("--" : GoString),
        c.config.Path] [] →
      e1.call.args = [("diff" : GoString), ("--quiet" : GoString), ("--" : GoString),
        c.config.Path] →
      e1.err = some x1 →
      e2 = issue sub c.dir (commitArgs
        { Author := a.Author, Message := a.Message ++ c.config.SkipMessage }) [e1] →
      e2.call.args = commitArgs
        { Author := a.Author, Message := a.Message ++ c.config.SkipMessage } →
      e2.err = none →
      ((note = none ∧ nt = []) ∨
        ∃ (n : ν) (b : GoString) (e3 e4 : Entry), note = some n ∧ js.Marshal n = .ok b ∧
          nt = [e3, e4] ∧
          e3.call.args = [("rev-list" : GoString), ("--max-count" : GoString),
            ("1" : GoString), ("HEAD" : GoString)] ∧
          e3.err = none ∧
          e4.call.args = [("notes" : GoString), ("--ref" : GoString), c.config.NotesRef,
            ("add" : GoString), ("-m" : GoString), b, trimSpace e3.result.stdout] ∧
          e4.err = none) →
      e5.call.args = [("rev-list" : GoString), c.realNotesRef] →
      ((e5.err = none ∧ refs = [c.config.Branch, c.realNotesRef]) ∨
        ((∃ x5, e5.err = some x5 ∧
            stringsContains x5.Error ("unknown revision" : GoString) = true) ∧
          refs = [c.config.Branch])) →
      e6.call.args = ("push" : GoString) :: c.upstream.URL :: refs →
      P (e6.err.map (fun err => pkg.PushError c.upstream.URL
            (.wrap err (("git push " : GoString) ++ c.upstream.URL ++ ' ' :: fmtStrings refs))),
          e1 :: e2 :: (nt ++ [e5, e6]))) :
    P (Checkout.CommitAndPush pkg js sub c a note []) := by
  simp only [Checkout.CommitAndPush, check_eq, List.nil_append]
  have a1 := issue_args sub c.dir
    [("diff" : GoString), ("--quiet" : GoString), ("--" : GoString), c.config.Path] []
  generalize issue sub c.dir _ [] = e1 at *
  cases h1 : e1.err with
  | none =>
    simp only [Option.isSome_none, Bool.not_false, ↓reduceIte]
    exact hNoChanges e1 rfl a1 h1
  | some x1 =>
    simp only [Option.isSome_some, Bool.not_true, Bool.false_eq_true, ↓reduceIte, commit_eq]
    have a2 := issue_args sub c.dir (commitArgs
      { Author := a.Author, Message := a.Message ++ c.config.SkipMessage }) [e1]
    generalize he2 : issue sub c.dir (commitArgs _) [e1] = e2 at *
    cases h2 : e2.err with
    | some x2 =>
      simp only [Option.map_some']
      exact hCommit e1 e2 x1 x2 rfl a1 h1 he2.symm a2 h2
    | none =>
      simp only [Option.map_none']
      -- the note step
      have key : ∀ (nt : List Entry),
          ((note = none ∧ nt = []) ∨
            ∃ (n : ν) (b : GoString) (e3 e4 : Entry), note = some n ∧ js.Marshal n = .ok b ∧
              nt = [e3, e4] ∧
              e3.call.args = [("rev-list" : GoString), ("--max-count" : GoString),
                ("1" : GoString), ("HEAD" : GoString)] ∧
              e3.err = none ∧
              e4.call.args = [("notes" : GoString), ("--ref" : GoString), c.config.NotesRef,
                ("add" : GoString), ("-m" : GoString), b, trimSpace e3.result.stdout] ∧
              e4.err = none) →
          P (match
              (if (refExists sub c.dir c.realNotesRef (e1 :: e2 :: nt)).1.1 = true then
                Except.ok ([c.config.Branch] ++ [c.realNotesRef])
              else
                match (refExists sub c.dir c.realNotesRef (e1 :: e2 :: nt)).1.2 with
                | some e => Except.error e
                | none => Except.ok [c.config.Branch]) with
            | Except.error e => (some e, (refExists sub c.dir c.realNotesRef (e1 :: e2 :: nt)).2)
            | Except.ok refs =>
              match (push sub c.dir c.upstream.URL refs
                  (refExists sub c.dir c.realNotesRef (e1 :: e2 :: nt)).2).1 with
              | some err =>
                (some (pkg.PushError c.upstream.URL err),
                  (push sub c.dir c.upstream.URL refs
                    (refExists sub c.dir c.realNotesRef (e1 :: e2 :: nt)).2).2)
              | none =>
                (none,
                  (push sub c.dir c.upstream.URL refs
                    (refExists sub c.dir c.realNotesRef (e1 :: e2 :: nt)).2).2)) := by
        intro nt hnt
        simp only [refExists_eq]
        have a5 := issue_args sub c.dir [("rev-list" : GoString), c.realNotesRef]
          (e1 :: e2 :: nt)
        generalize issue sub c.dir [("rev-list" : GoString), c.realNotesRef]
          (e1 :: e2 :: nt) = e5 at *
        cases h5 : e5.err with
        | none =>
          simp only [↓reduceIte, push_eq, List.cons_append, List.nil_append]
          have a6 := issue_args sub c.dir
            (("push" : GoString) :: c.upstream.URL :: [c.config.Branch, c.realNotesRef])
            (e1 :: e2 :: (nt ++ [e5]))
          generalize issue sub c.dir (("push" : GoString) :: c.upstream.URL :: _)
            (e1 :: e2 :: (nt ++ [e5])) = e6 at *
          have := hPush e1 e2 e5 e6 nt x1 [c.config.Branch, c.realNotesRef] rfl a1 h1 he2.symm a2 h2 hnt a5
            (Or.inl ⟨h5, rfl⟩) a6
          cases h6 : e6.err with
          | none => simpa [h6] using this
          | some x6 => simpa [h6] using this
        | some x5 =>
          by_cases hu : stringsContains x5.Error ("unknown revision" : GoString) = true
          · simp only [hu, ↓reduceIte, Bool.false_eq_true, push_eq, List.cons_append,
              List.nil_append]
            have a6 := issue_args sub c.dir
              (("push" : GoString) :: c.upstream.URL :: [c.config.Branch])
              (e1 :: e2 :: (nt ++ [e5]))
            generalize issue sub c.dir (("push" : GoString) :: c.upstream.URL :: _)
              (e1 :: e2 :: (nt ++ [e5])) = e6 at *
            have := hPush e1 e2 e5 e6 nt x1 [c.config.Branch] rfl a1 h1 he2.symm a2 h2 hnt a5
              (Or.inr ⟨⟨x5, h5, hu⟩, rfl⟩) a6
            cases h6 : e6.err with
            | none => simpa [h6] using this
            | some x6 => simpa [h6] using this
          · simp only [hu, ↓reduceIte, Bool.false_eq_true, List.cons_append, List.nil_append]
            exact hExists e1 e2 e5 nt x1 x5 rfl a1 h1 he2.symm a2 h2 hnt a5 h5 (by simpa using hu)
      cases note with
      | none =>
        simp only
        exact key [] (Or.inl ⟨rfl, rfl⟩)
      | some n =>
        simp only [refRevision_eq, List.cons_append, List.nil_append]
        have a3 := issue_args sub c.dir
          [("rev-list" : GoString), ("--max-count" : GoString), ("1" : GoString),
            ("HEAD" : GoString)] [e1, e2]
        generalize issue sub c.dir _ [e1, e2] = e3 at *
        cases h3 : e3.err with
        | some x3 =>
          simp only
          exact hRev e1 e2 e3 x1 x3 n rfl a1 h1 he2.symm a2 h2 rfl a3 h3
        | none =>
          simp only [addNote_eq]
          cases hm : js.Marshal n with
          | error x =>
            simp only
            exact hMarshal e1 e2 e3 x1 x n rfl a1 h1 he2.symm a2 h2 rfl a3 h3 hm
          | ok b =>
            simp only [List.cons_append, List.nil_append]
            have a4 := issue_args sub c.dir
              [("notes" : GoString), ("--ref" : GoString), c.config.NotesRef,
                ("add" : GoString), ("-m" : GoString), b, trimSpace e3.result.stdout]
              [e1, e2, e3]
            generalize issue sub c.dir _ [e1, e2, e3] = e4 at *
            cases h4 : e4.err with
            | some x4 =>
              simp only
              exact hAdd e1 e2 e3 e4 x1 x4 n b rfl a1 h1 he2.symm a2 h2 rfl a3 h3 hm a4 h4
            | none =>
              simp only
              exact key [e3, e4] (Or.inr ⟨n, b, e3, e4, rfl, hm, rfl, a3, h3, a4, h4⟩)

/-- Case analysis of a run of `Checkout.CommitAndPush` from the empty history:
a property of the pair (returned error, issued subprocesses) holds for the run
as soon as it holds in each of the seven ways the run can end.  `nt` stands
for the subprocesses of the note step: none when `note` is nil, the head
revision lookup and the `notes add` otherwise. -/
theorem CommitAndPush_cases {ν : Type} (pkg : Package) (js : Json ν) (sub : Subprocess)
    (c : Checkout) (a : CommitAction) (note : Option ν)
    (P : Option GoError × Trace → Prop)
    (hNoChanges : ∀ e1 : Entry,
      e1.call.args = [("diff" : GoString), ("--quiet" : GoString), ("--" : GoString),
        c.config.Path] →
      e1.err = none → P (some pkg.ErrNoChanges, [e1]))
    (hCommit : ∀ (e1 e2 : Entry) (x1 x2 : GoError),
      e1.call.args = [("diff" : GoString), ("--quiet" : GoString), ("--" : GoString),
        c.config.Path] →
      e1.err = some x1 →
      e2.call.args = commitArgs
        { Author := a.Author, Message := a.Message ++ c.config.SkipMessage } →
      e2.err = some x2 →
      P (some (.wrap x2 ("git commit" : GoString)), [e1, e2]))
    (hRev : ∀ (e1 e2 e3 : Entry) (x1 x3 : GoError) (n : ν),
      e1.call.args = [("diff" : GoString), ("--quiet" : GoString), ("--" : GoString),
        c.config.Path] →
      e1.err = some x1 →
      e2.call.args = commitArgs
        { Author := a.Author, Message := a.Message ++ c.config.SkipMessage } →
      e2.err = none → note = some n →
      e3.call.args = [("rev-list" : GoString), ("--max-count" : GoString), ("1" : GoString),
        ("HEAD" : GoString)] →
      e3.err = some x3 →
      P (some x3, [e1, e2, e3]))
    (hMarshal : ∀ (e1 e2 e3 : Entry) (x1 x : GoError) (n : ν),
      e1.call.args = [("diff" : GoString), ("--quiet" : GoString), ("--" : GoString),
        c.config.Path] →
      e1.err = some x1 →
      e2.call.args = commitArgs
        { Author := a.Author, Message := a.Message ++ c.config.SkipMessage } →
      e2.err = none → note = some n →
      e3.call.args = [("rev-list" : GoString), ("--max-count" : GoString), ("1" : GoString),
        ("HEAD" : GoString)] →
      e3.err = none → js.Marshal n = .error x →
      P (some x, [e1, e2, e3]))
    (hAdd : ∀ (e1 e2 e3 e4 : Entry) (x1 x4 : GoError) (n : ν) (b : GoString),
      e1.call.args = [("diff" : GoString), ("--quiet" : GoString), ("--" : GoString),
        c.config.Path] →
      e1.err = some x1 →
      e2.call.args = commitArgs
        { Author := a.Author, Message := a.Message ++ c.config.SkipMessage } →
      e2.err = none → note = some n →
      e3.call.args = [("rev-list" : GoString), ("--max-count" : GoString), ("1" : GoString),
        ("HEAD" : GoString)] →
      e3.err = none → js.Marshal n = .ok b →
      e4.call.args = [("notes" : GoString), ("--ref" : GoString), c.config.NotesRef,
        ("add" : GoString), ("-m" : GoString), b, trimSpace e3.result.stdout] →
      e4.err = some x4 →
      P (some x4, [e1, e2, e3, e4]))
    (hExists : ∀ (e1 e2 e5 : Entry) (nt : List Entry) (x1 x5 : GoError),
      e1.call.args = [("diff" : GoString), ("--quiet" : GoString), ("--" : GoString),
        c.config.Path] →
      e1.err = some x1 →
      e2.call.args = commitArgs
        { Author := a.Author, Message := a.Message ++ c.config.SkipMessage } →
      e2.err = none →
      ((note = none ∧ nt = []) ∨
        ∃ (n : ν) (b : GoString) (e3 e4 : Entry), note = some n ∧ js.Marshal n = .ok b ∧
          nt = [e3, e4] ∧
          e3.call.args = [("rev-list" : GoString), ("--max-count" : GoString),
            ("1" : GoString), ("HEAD" : GoString)] ∧
          e3.err = none ∧
          e4.call.args = [("notes" : GoString), ("--ref" : GoString), c.config.NotesRef,
            ("add" : GoString), ("-m" : GoString), b, trimSpace e3.result.stdout] ∧
          e4.err = none) →
      e5.call.args = [("rev-list" : GoString), c.realNotesRef] →
      e5.err = some x5 →
      stringsContains x5.Error ("unknown revision" : GoString) = false →
      P (some x5, e1 :: e2 :: (nt ++ [e5])))
    (hPush : ∀ (e1 e2 e5 e6 : Entry) (nt : List Entry) (x1 : GoError) (refs : List GoString),
      e1.call.args = [("diff" : GoString), ("--quiet" : GoString), ("--" : GoString),
        c.config.Path] →
      e1.err = some x1 →
      e2.call.args = commitArgs
        { Author := a.Author, Message := a.Message ++ c.config.SkipMessage } →
      e2.err = none →
      ((note = none ∧ nt = []) ∨
        ∃ (n : ν) (b : GoString) (e3 e4 : Entry), note = some n ∧ js.Marshal n = .ok b ∧
          nt = [e3, e4] ∧
          e3.call.args = [("rev-list" : GoString), ("--max-count" : GoString),
            ("1" : GoString), ("HEAD" : GoString)] ∧
          e3.err = none ∧
          e4.call.args = [("notes" : GoString), ("--ref" : GoString), c.config.NotesRef,
            ("add" : GoString), ("-m" : GoString), b, trimSpace e3.result.stdout] ∧
          e4.err = none) →
      e5.call.args = [("rev-list" : GoString), c.realNotesRef] →
      ((e5.err = none ∧ refs = [c.config.Branch, c.realNotesRef]) ∨
        ((∃ x5, e5.err = some x5 ∧
            stringsContains x5.Error ("unknown revision" : GoString) = true) ∧
          refs = [c.config.Branch])) →
      e6.call.args = ("push" : GoString) :: c.upstream.URL :: refs →
      P (e6.err.map (fun err => pkg.PushError c.upstream.URL
            (.wrap err (("git push " : GoString) ++ c.upstream.URL ++ ' ' :: fmtStrings refs))),
          e1 :: e2 :: (nt ++ [e5, e6]))) :
    P (Checkout.CommitAndPush pkg js sub c a note []) :=
  CommitAndPush_cases_issued pkg js sub c a note P
    (fun e1 _ a1 h1 => hNoChanges e1 a1 h1)
    (fun e1 e2 x1 x2 _ a1 h1 _ a2 h2 => hCommit e1 e2 x1 x2 a1 h1 a2 h2)
    (fun e1 e2 e3 x1 x3 n _ a1 h1 _ a2 h2 => hRev e1 e2 e3 x1 x3 n a1 h1 a2 h2)
    (fun e1 e2 e3 x1 x n _ a1 h1 _ a2 h2 => hMarshal e1 e2 e3 x1 x n a1 h1 a2 h2)
    (fun e1 e2 e3 e4 x1 x4 n b _ a1 h1 _ a2 h2 => hAdd e1 e2 e3 e4 x1 x4 n b a1 h1 a2 h2)
    (fun e1 e2 e5 nt x1 x5 _ a1 h1 _ a2 h2 => hExists e1 e2 e5 nt x1 x5 a1 h1 a2 h2)
    (fun e1 e2 e5 e6 nt x1 refs _ a1 h1 _ a2 h2 => hPush e1 e2 e5 e6 nt x1 refs a1 h1 a2 h2)

/-! ## Paths -/

theorem splitSep_ne_nil (sep : Char) (s : GoString) : splitSep sep s ≠ [] := by
  induction s with
  | nil => simp [splitSep]
  | cons c cs ih =>
    unfold splitSep
    by_cases h : c = sep
    · simp [h]
    · simp only [h, ↓reduceIte]
      cases hs : splitSep sep cs with
      | nil => simp
      | cons l ls => simp

theorem splitSep_append (sep : Char) (u v : GoString) :
    splitSep sep (u ++ sep :: v) = splitSep sep u ++ splitSep sep v := by
  induction u with
  | nil => simp [splitSep]
  | cons c u ih =>
    by_cases h : c = sep
    · simp [splitSep, h, ih]
    · simp only [List.cons_append, splitSep, h, ↓reduceIte, List.append_eq]
      rw [ih]
      cases hs : splitSep sep u with
      | nil => exact absurd hs (splitSep_ne_nil sep u)
      | cons l ls => simp

theorem splitSep_of_no_sep (sep : Char) (n : GoString) (h : ∀ c ∈ n, c ≠ sep) :
    splitSep sep n = [n] := by
  induction n with
  | nil => rfl
  | cons c n ih =>
    have hc : c ≠ sep := h c (List.mem_cons_self _ _)
    simp [splitSep, hc, ih (fun x hx => h x (List.mem_cons_of_mem _ hx))]

theorem splitSep_replicate (sep : Char) (k : Nat) :
    splitSep sep (List.replicate k sep) = List.replicate (k + 1) [] := by
  induction k with
  | zero => rfl
  | succ k ih => simp [List.replicate_succ, splitSep, ih]

theorem cleanElems_empties (rooted : Bool) (st es : List GoString) (h : ∀ e ∈ es, e = []) :
    cleanElems rooted st es = st.reverse := by
  induction es with
  | nil => rfl
  | cons e es ih =>
    have he : e = [] := h e (List.mem_cons_self _ _)
    simp only [cleanElems, he, true_or, ↓reduceIte]
    exact ih (fun x hx => h x (List.mem_cons_of_mem _ hx))

theorem cleanElems_ends_with (rooted : Bool) (n : GoString) (es : List GoString)
    (hn0 : n ≠ []) (hn1 : n ≠ ['.']) (hn2 : n ≠ ['.', '.']) (hes : ∀ e ∈ es, e = [])
    (ys st : List GoString) :
    ∃ zs, cleanElems rooted st (ys ++ n :: es) = zs ++ [n] := by
  induction ys generalizing st with
  | nil =>
    refine ⟨st.reverse, ?_⟩
    simp only [List.nil_append, cleanElems, hn0, hn1, hn2, or_self, ↓reduceIte]
    rw [cleanElems_empties rooted _ es hes]
    simp
  | cons y ys ih =>
    simp only [List.cons_append, cleanElems]
    by_cases h1 : y = [] ∨ y = ['.']
    · simp only [h1, ↓reduceIte]
      exact ih st
    · simp only [h1, ↓reduceIte]
      by_cases h2 : y = ['.', '.']
      · simp only [h2, ↓reduceIte]
        cases st with
        | nil =>
          cases rooted
          · simpa using ih _
          · simpa using ih _
        | cons top rest =>
          by_cases h3 : top = ['.', '.']
          · simpa [h3] using ih _
          · simpa [h3] using ih _
      · simp only [h2, ↓reduceIte]
        exact ih _

theorem joinSep_append_singleton (zs : List GoString) (n : GoString) :
    joinSep '/' (zs ++ [n]) = if zs = [] then n else joinSep '/' zs ++ '/' :: n := by
  induction zs with
  | nil => rfl
  | cons z zs ih =>
    cases zs with
    | nil => simp [joinSep]
    | cons z' zs' =>
      simp only [List.cons_append, joinSep, List.append_eq] at ih ⊢
      simp only [reduceCtorEq, ↓reduceIte] at ih ⊢
      rw [ih]
      simp

theorem filepathBase_append_name (w n : GoString) (hn0 : n ≠ [])
    (hn : ∀ c ∈ n, c ≠ '/') (hw : w = [] ∨ ∃ w', w = w' ++ ['/']) :
    filepathBase (w ++ n) = n := by
  obtain ⟨r, c, hr⟩ : ∃ r c, n.reverse = c :: r := by
    cases h : n.reverse with
    | nil => exact absurd (List.reverse_eq_nil_iff.mp h) hn0
    | cons c r => exact ⟨r, c, rfl⟩
  have hc : c ≠ '/' := hn c (by
    have : c ∈ n.reverse := by rw [hr]; exact List.mem_cons_self _ _
    exact List.mem_reverse.mp this)
  have hne : w ++ n ≠ [] := by simp [hn0]
  have htrim : trimRightFunc (fun c => c == '/') (w ++ n) = w ++ n := by
    unfold trimRightFunc
    rw [List.reverse_append, hr]
    simp only [List.cons_append, List.dropWhile_cons, beq_iff_eq, hc, ↓reduceIte]
    rw [← List.cons_append, ← hr, ← List.reverse_append]
    simp
  have htake : ((w ++ n).reverse.takeWhile (fun c => c != '/')) = n.reverse := by
    rw [List.reverse_append]
    rw [List.takeWhile_append_of_pos]
    · rcases hw with rfl | ⟨w', rfl⟩
      · simp
      · simp
    · intro a ha
      have := hn a (List.mem_reverse.mp ha)
      simpa using this
  unfold filepathBase
  simp only [hne, ↓reduceIte, htrim, htake, List.reverse_reverse, hn0]

theorem filepathBase_decomp (f : GoString) (hf : f ≠ []) (hb : filepathBase f ≠ ['/']) :
    ∃ (w : GoString) (k : Nat),
      f = w ++ filepathBase f ++ List.replicate k '/' ∧
      (w = [] ∨ ∃ w', w = w' ++ ['/']) ∧
      filepathBase f ≠ [] ∧ ∀ c ∈ filepathBase f, c ≠ '/' := by
  have hbase : filepathBase f =
      (((f.reverse.dropWhile (fun c => c == '/')).takeWhile (fun c => c != '/')).reverse) := by
    unfold filepathBase trimRightFunc
    simp only [hf, ↓reduceIte, List.reverse_reverse]
    unfold filepathBase trimRightFunc at hb
    simp only [hf, ↓reduceIte, List.reverse_reverse] at hb
    split
    · rename_i h
      simp [h] at hb
    · rfl
  have hne : filepathBase f ≠ [] := by
    unfold filepathBase trimRightFunc
    simp only [hf, ↓reduceIte, List.reverse_reverse]
    split <;> simp_all
  refine ⟨((f.reverse.dropWhile (fun c => c == '/')).dropWhile (fun c => c != '/')).reverse,
    (f.reverse.takeWhile (fun c => c == '/')).length, ?_, ?_, hne, ?_⟩
  · have h1 : f.reverse = f.reverse.takeWhile (fun c => c == '/') ++
        f.reverse.dropWhile (fun c => c == '/') := (List.takeWhile_append_dropWhile _ _).symm
    have h2 : f.reverse.dropWhile (fun c => c == '/') =
        (f.reverse.dropWhile (fun c => c == '/')).takeWhile (fun c => c != '/') ++
        (f.reverse.dropWhile (fun c => c == '/')).dropWhile (fun c => c != '/') :=
      (List.takeWhile_append_dropWhile _ _).symm
    have h3 : f.reverse.takeWhile (fun c => c == '/') =
        List.replicate (f.reverse.takeWhile (fun c => c == '/')).length '/' := by
      rw [List.eq_replicate_iff]
      refine ⟨rfl, ?_⟩
      intro b hb'
      simpa using List.mem_takeWhile_imp hb'
    have h4 : f.reverse.reverse =
        (f.reverse.takeWhile (fun c => c == '/') ++
          ((f.reverse.dropWhile (fun c => c == '/')).takeWhile (fun c => c != '/') ++
            (f.reverse.dropWhile (fun c => c == '/')).dropWhile (fun c => c != '/'))).reverse :=
      congrArg List.reverse (h1.trans (congrArg _ h2))
    rw [List.reverse_reverse] at h4
    rw [hbase]
    refine h4.trans ?_
    simp only [List.reverse_append, List.append_assoc]
    congr 2
    conv_lhs => rw [h3]
    simp
  · cases h : (f.reverse.dropWhile (fun c => c == '/')).dropWhile (fun c => c != '/') with
    | nil => left; simp
    | cons c r =>
      right
      have hc := List.head_dropWhile_not (fun c => c != '/')
        (f.reverse.dropWhile (fun c => c == '/')) (by rw [h]; simp)
      simp only [h, List.head_cons, bne_iff_ne, ne_eq, Bool.not_eq_true, Bool.decide_eq_false,
        Bool.not_eq_eq_eq_not, Bool.not_true] at hc
      refine ⟨r.reverse, ?_⟩
      simp at hc
      simp [hc]
  · intro c hc
    rw [hbase] at hc
    have := List.mem_takeWhile_imp (List.mem_reverse.mp hc)
    simpa using this

theorem filepathBase_clean (n u : GoString) (k : Nat) (hn0 : n ≠ []) (hn1 : n ≠ ['.'])
    (hn2 : n ≠ ['.', '.']) (hn : ∀ c ∈ n, c ≠ '/') (hu : u = [] ∨ ∃ u', u = u' ++ ['/']) :
    filepathBase (filepathClean (u ++ n ++ List.replicate k '/')) = n := by
  have hsn : splitSep '/' (n ++ List.replicate k '/') = n :: List.replicate k [] := by
    cases k with
    | zero => simpa using splitSep_of_no_sep '/' n hn
    | succ k =>
      rw [List.replicate_succ, splitSep_append, splitSep_of_no_sep '/' n hn,
        splitSep_replicate]
      simp [List.replicate_succ]
  obtain ⟨ys, hys⟩ : ∃ ys, splitSep '/' (u ++ n ++ List.replicate k '/')
      = ys ++ n :: List.replicate k [] := by
    rcases hu with rfl | ⟨u', rfl⟩
    · exact ⟨[], by simpa using hsn⟩
    · refine ⟨splitSep '/' u', ?_⟩
      have : u' ++ ['/'] ++ n ++ List.replicate k '/' = u' ++ '/' :: (n ++ List.replicate k '/') := by
        simp
      rw [this, splitSep_append, hsn]
  have hp : u ++ n ++ List.replicate k '/' ≠ [] := by simp [hn0]
  obtain ⟨zs, hzs⟩ := cleanElems_ends_with
    ((u ++ n ++ List.replicate k '/').head? = some '/') n (List.replicate k [])
    hn0 hn1 hn2 (fun e he => (List.mem_replicate.mp he).2) ys []
  unfold filepathClean
  simp only [hp, ↓reduceIte, hys, hzs, joinSep_append_singleton]
  by_cases hr : (u ++ n ++ List.replicate k '/').head? = some '/'
  · simp only [hr, decide_True, ↓reduceIte]
    by_cases hz : zs = []
    · simp only [hz, ↓reduceIte, reduceCtorEq]
      exact filepathBase_append_name ['/'] n hn0 hn (Or.inr ⟨[], rfl⟩)
    · simp only [hz, ↓reduceIte, reduceCtorEq]
      have := filepathBase_append_name ('/' :: joinSep '/' zs ++ ['/']) n hn0 hn
        (Or.inr ⟨'/' :: joinSep '/' zs, rfl⟩)
      simpa using this
  · simp only [hr, decide_False, Bool.false_eq_true, ↓reduceIte]
    by_cases hz : zs = []
    · simp only [hz, ↓reduceIte, hn0]
      exact filepathBase_append_name [] n hn0 hn (Or.inl rfl)
    · have hne : joinSep '/' zs ++ '/' :: n ≠ [] := by simp
      simp only [hz, ↓reduceIte, hne]
      have := filepathBase_append_name (joinSep '/' zs ++ ['/']) n hn0 hn
        (Or.inr ⟨joinSep '/' zs, rfl⟩)
      simpa using this

/-- Joining a directory in front of a path keeps the base name, when that
base name is a name: not `.`, `..` or `/`. -/
theorem filepathBase_join (dir f : GoString) (h1 : filepathBase f ≠ ['.'])
    (h2 : filepathBase f ≠ ['.', '.']) (h3 : filepathBase f ≠ ['/']) :
    filepathBase (filepathJoin dir f) = filepathBase f := by
  have hf : f ≠ [] := by
    intro h
    exact h1 (by rw [h]; rfl)
  obtain ⟨w, k, hfw, hw, hn0, hn⟩ := filepathBase_decomp f hf h3
  unfold filepathJoin
  by_cases hd : dir = []
  · simp only [hd, ne_eq, not_true_eq_false, ↓reduceIte, hf, not_false_eq_true]
    conv_lhs => rw [hfw]
    exact filepathBase_clean _ w k hn0 h1 h2 hn hw
  · simp only [ne_eq, hd, not_false_eq_true, ↓reduceIte]
    have : dir ++ '/' :: f = (dir ++ '/' :: w) ++ filepathBase f ++ List.replicate k '/' := by
      conv_lhs => rw [hfw]
      simp
    rw [this]
    refine filepathBase_clean _ _ k hn0 h1 h2 hn (Or.inr ?_)
    rcases hw with rfl | ⟨w', rfl⟩
    · exact ⟨dir, rfl⟩
    · exact ⟨dir ++ '/' :: w', by simp⟩

theorem splitSep_no_sep (sep : Char) (s : GoString) :
    ∀ l ∈ splitSep sep s, sep ∉ l := by
  induction s with
  | nil => simp [splitSep]
  | cons c cs ih =>
    unfold splitSep
    by_cases h : c = sep
    · simp only [h, ↓reduceIte, List.mem_cons]
      rintro l (rfl | hl)
      · simp
      · exact ih l hl
    · simp only [h, ↓reduceIte]
      cases hs : splitSep sep cs with
      | nil => exact absurd hs (splitSep_ne_nil sep cs)
      | cons p ps =>
        rw [hs] at ih
        simp only [List.mem_cons]
        rintro l (rfl | hl)
        · have := ih p (List.mem_cons_self _ _)
          simp only [List.mem_cons, not_or]
          exact ⟨fun hc => h hc.symm, this⟩
        · exact ih l (List.mem_cons_of_mem _ hl)

theorem joinSep_splitSep (sep : Char) (s : GoString) : joinSep sep (splitSep sep s) = s := by
  induction s with
  | nil => rfl
  | cons c cs ih =>
    unfold splitSep
    by_cases h : c = sep
    · simp only [h, ↓reduceIte]
      cases hs : splitSep sep cs with
      | nil => exact absurd hs (splitSep_ne_nil sep cs)
      | cons p ps =>
        rw [hs] at ih
        simp only [joinSep, List.nil_append, ih]
    · simp only [h, ↓reduceIte]
      cases hs : splitSep sep cs with
      | nil => exact absurd hs (splitSep_ne_nil sep cs)
      | cons p ps =>
        rw [hs] at ih
        cases ps with
        | nil =>
          simp only [joinSep] at ih ⊢
          rw [ih]
        | cons q qs =>
          simp only [joinSep] at ih ⊢
          rw [← ih]
          simp

/-- The list `splitList` returns holds the lines of the trimmed text: no entry
contains a newline and the entries joined by newlines are the trimmed text. -/
theorem splitList_lines (s : GoString) :
    (∀ l ∈ splitList s, '\n' ∉ l) ∧ joinSep '\n' (splitList s) = trimSpace s := by
  unfold splitList
  by_cases h : trimSpace s = []
  · simp [h, joinSep]
  · simp only [h, ↓reduceIte]
    exact ⟨splitSep_no_sep _ _, joinSep_splitSep _ _⟩

/-! ## Substrings -/

theorem stringsContains_iff (s sub : GoString) :
    stringsContains s sub = true ↔ List.IsInfix sub s := by
  induction s with
  | nil =>
    cases sub with
    | nil => simp [stringsContains]
    | cons a l => simp [stringsContains]
  | cons c cs ih =>
    simp only [stringsContains, Bool.or_eq_true, ih, List.infix_cons_iff,
      List.isPrefixOf_iff_prefix]

theorem stringsContains_map (f : Char → Char) (s sub : GoString)
    (h : stringsContains s sub = true) : stringsContains (s.map f) (sub.map f) = true := by
  rw [stringsContains_iff] at h ⊢
  obtain ⟨a, b, hab⟩ := h
  exact ⟨a.map f, b.map f, by rw [← hab]; simp⟩

/-! ## Commit and push -/

theorem commitArgs_head (a : CommitAction) :
    (commitArgs a).head? = some ("commit" : GoString) := by
  unfold commitArgs
  by_cases h : a.Author = [] <;> simp [h]

/-- **C1.** In every run of `Checkout.CommitAndPush`: a push subprocess is
issued only after a commit subprocess that returned success; if the commit
fails, the run returns that error wrapped as `git commit` and issues no note
and no push subprocess; and the run returns nil only if a commit and a push
both returned success. -/
theorem commitAndPush_pushes_only_after_commit {ν : Type} (pkg : Package) (js : Json ν)
    (sub : Subprocess) (c : Checkout) (a : CommitAction) (note : Option ν) :
    (∀ (i : Nat) (p : Entry),
        (Checkout.CommitAndPush pkg js sub c a note []).2.get? i = some p → p.isPush →
        ∃ e ∈ (Checkout.CommitAndPush pkg js sub c a note []).2.take i,
          e.isCommit ∧ e.err = none) ∧
    (∀ e ∈ (Checkout.CommitAndPush pkg js sub c a note []).2, e.isCommit →
        ∀ err, e.err = some err →
          (Checkout.CommitAndPush pkg js sub c a note []).1
              = some (.wrap err ("git commit" : GoString)) ∧
          ∀ x ∈ (Checkout.CommitAndPush pkg js sub c a note []).2,
            ¬ x.isNote ∧ ¬ x.isPush) ∧
    ((Checkout.CommitAndPush pkg js sub c a note []).1 = none →
        (∃ e ∈ (Checkout.CommitAndPush pkg js sub c a note []).2,
          e.isCommit ∧ e.err = none) ∧
        ∃ p ∈ (Checkout.CommitAndPush pkg js sub c a note []).2,
          p.isPush ∧ p.err = none) := by
  refine CommitAndPush_cases pkg js sub c a note
    (fun r =>
      (∀ (i : Nat) (p : Entry), r.2.get? i = some p → p.isPush →
        ∃ e ∈ r.2.take i, e.isCommit ∧ e.err = none) ∧
      (∀ e ∈ r.2, e.isCommit → ∀ err, e.err = some err →
        r.1 = some (.wrap err ("git commit" : GoString)) ∧
        ∀ x ∈ r.2, ¬ x.isNote ∧ ¬ x.isPush) ∧
      (r.1 = none →
        (∃ e ∈ r.2, e.isCommit ∧ e.err = none) ∧ ∃ p ∈ r.2, p.isPush ∧ p.err = none))
    ?_ ?_ ?_ ?_ ?_ ?_ ?_
  · intro e1 a1 h1
    refine ⟨?_, ?_, ?_⟩
    · intro i p hi hp
      rcases i with _ | i <;> simp at hi
      subst hi
      simp [Entry.isPush, a1] at hp
    · intro e he hc
      simp at he
      subst he
      simp [Entry.isCommit, a1] at hc
    · simp
  · intro e1 e2 x1 x2 a1 h1 a2 h2
    have c2 := commitArgs_head { Author := a.Author, Message := a.Message ++ c.config.SkipMessage }
    refine ⟨?_, ?_, ?_⟩
    · intro i p hi hp
      rcases i with _ | _ | i <;> simp at hi <;> subst hi <;>
        simp [Entry.isPush, a1, a2, c2] at hp
    · intro e he hc
      simp at he
      rcases he with rfl | rfl
      · simp [Entry.isCommit, a1] at hc
      · simp [h2, Entry.isNote, Entry.isPush, a1, a2, c2]
    · simp
  · intro e1 e2 e3 x1 x3 n a1 h1 a2 h2 _ a3 h3
    have c2 := commitArgs_head { Author := a.Author, Message := a.Message ++ c.config.SkipMessage }
    refine ⟨?_, ?_, ?_⟩
    · intro i p hi hp
      rcases i with _ | _ | _ | i <;> simp at hi <;> subst hi <;>
        simp [Entry.isPush, a1, a2, c2, a3] at hp
    · intro e he hc err herr
      simp at he
      rcases he with rfl | rfl | rfl
      · simp [Entry.isCommit, a1] at hc
      · simp [h2] at herr
      · simp [Entry.isCommit, a3] at hc
    · simp
  · intro e1 e2 e3 x1 x n a1 h1 a2 h2 _ a3 h3 _
    have c2 := commitArgs_head { Author := a.Author, Message := a.Message ++ c.config.SkipMessage }
    refine ⟨?_, ?_, ?_⟩
    · intro i p hi hp
      rcases i with _ | _ | _ | i <;> simp at hi <;> subst hi <;>
        simp [Entry.isPush, a1, a2, c2, a3] at hp
    · intro e he hc err herr
      simp at he
      rcases he with rfl | rfl | rfl
      · simp [Entry.isCommit, a1] at hc
      · simp [h2] at herr
      · simp [Entry.isCommit, a3] at hc
    · simp
  · intro e1 e2 e3 e4 x1 x4 n b a1 h1 a2 h2 _ a3 h3 _ a4 h4
    have c2 := commitArgs_head { Author := a.Author, Message := a.Message ++ c.config.SkipMessage }
    refine ⟨?_, ?_, ?_⟩
    · intro i p hi hp
      rcases i with _ | _ | _ | _ | i <;> simp at hi <;> subst hi <;>
        simp [Entry.isPush, a1, a2, c2, a3, a4] at hp
    · intro e he hc err herr
      simp at he
      rcases he with rfl | rfl | rfl | rfl
      · simp [Entry.isCommit, a1] at hc
      · simp [h2] at herr
      · simp [Entry.isCommit, a3] at hc
      · simp [Entry.isCommit, a4] at hc
    · simp
  · intro e1 e2 e5 nt x1 x5 a1 h1 a2 h2 hnt a5 h5 _
    have c2 := commitArgs_head { Author := a.Author, Message := a.Message ++ c.config.SkipMessage }
    rcases hnt with ⟨_, rfl⟩ | ⟨n, b, e3, e4, _, _, rfl, a3, h3, a4, h4⟩
    · refine ⟨?_, ?_, ?_⟩
      · intro i p hi hp
        rcases i with _ | _ | _ | i <;> simp at hi <;> subst hi <;>
          simp [Entry.isPush, a1, a2, c2, a5] at hp
      · intro e he hc err herr
        simp at he
        rcases he with rfl | rfl | rfl
        · simp [Entry.isCommit, a1] at hc
        · simp [h2] at herr
        · simp [Entry.isCommit, a5] at hc
      · simp
    · refine ⟨?_, ?_, ?_⟩
      · intro i p hi hp
        rcases i with _ | _ | _ | _ | _ | i <;> simp at hi <;> subst hi <;>
          simp [Entry.isPush, a1, a2, c2, a3, a4, a5] at hp
      · intro e he hc err herr
        simp at he
        rcases he with rfl | rfl | rfl | rfl | rfl
        · simp [Entry.isCommit, a1] at hc
        · simp [h2] at herr
        · simp [Entry.isCommit, a3] at hc
        · simp [Entry.isCommit, a4] at hc
        · simp [Entry.isCommit, a5] at hc
      · simp
  · intro e1 e2 e5 e6 nt x1 refs a1 h1 a2 h2 hnt a5 _ a6
    have c2 := commitArgs_head { Author := a.Author, Message := a.Message ++ c.config.SkipMessage }
    rcases hnt with ⟨_, rfl⟩ | ⟨n, b, e3, e4, _, _, rfl, a3, h3, a4, h4⟩
    · refine ⟨?_, ?_, ?_⟩
      · intro i p hi hp
        rcases i with _ | _ | _ | _ | i <;> simp at hi <;> subst hi <;>
          first
          | (simp [Entry.isPush, a1, a2, c2, a5] at hp; done)
          | simp [Entry.isCommit, a2, c2, h2]
      · intro e he hc err herr
        simp at he
        rcases he with rfl | rfl | rfl | rfl
        · simp [Entry.isCommit, a1] at hc
        · simp [h2] at herr
        · simp [Entry.isCommit, a5] at hc
        · simp [Entry.isCommit, a6] at hc
      · intro hres
        simp at hres
        simp [Entry.isCommit, Entry.isPush, a2, c2, h2, a6, hres]
    · refine ⟨?_, ?_, ?_⟩
      · intro i p hi hp
        rcases i with _ | _ | _ | _ | _ | _ | i <;> simp at hi <;> subst hi <;>
          first
          | (simp [Entry.isPush, a1, a2, c2, a3, a4, a5] at hp; done)
          | simp [Entry.isCommit, a2, c2, h2]
      · intro e he hc err herr
        simp at he
        rcases he with rfl | rfl | rfl | rfl | rfl | rfl
        · simp [Entry.isCommit, a1] at hc
        · simp [h2] at herr
        · simp [Entry.isCommit, a3] at hc
        · simp [Entry.isCommit, a4] at hc
        · simp [Entry.isCommit, a5] at hc
        · simp [Entry.isCommit, a6] at hc
      · intro hres
        simp at hres
        simp [Entry.isCommit, Entry.isPush, a2, c2, h2, a6, hres]

/-- **C2.** When the silent diff under `config.Path` exits with status zero
and the context is alive, `check` returns false, and `Checkout.CommitAndPush`
returns the sentinel `ErrNoChanges` having issued that diff only: no commit,
note or push subprocess. -/
theorem commitAndPush_no_changes {ν : Type} (pkg : Package) (js : Json ν) (sub : Subprocess)
    (c : Checkout) (a : CommitAction) (note : Option ν)
    (hrun : (issue sub c.dir [("diff" : GoString), ("--quiet" : GoString), ("--" : GoString),
      c.config.Path] []).result.runErr = none)
    (hctx : (issue sub c.dir [("diff" : GoString), ("--quiet" : GoString), ("--" : GoString),
      c.config.Path] []).result.ctxErr = .none) :
    (check sub c.dir c.config.Path []).1 = false ∧
    (Checkout.CommitAndPush pkg js sub c a note []).1 = some pkg.ErrNoChanges ∧
    (Checkout.CommitAndPush pkg js sub c a note []).2 = (check sub c.dir c.config.Path []).2 ∧
    (Checkout.CommitAndPush pkg js sub c a note []).2.length = 1 ∧
    ∀ x ∈ (Checkout.CommitAndPush pkg js sub c a note []).2,
      ¬ x.isCommit ∧ ¬ x.isNote ∧ ¬ x.isPush := by
  simp only [String.toList, issue] at hrun hctx
  simp [Checkout.CommitAndPush, check, execGitCmd, Entry.isCommit, Entry.isNote, Entry.isPush,
    issue, execGitCmdErr, hrun, hctx]

/-- The statement of C2 at the sample checkout in the quiet environment. -/
theorem commitAndPush_no_changes_witness :
    (check quietSub sampleCheckout.dir sampleCheckout.config.Path []).1 = false ∧
    (Checkout.CommitAndPush samplePackage sampleJson quietSub sampleCheckout sampleAction
      (some ("{}" : GoString)) []).1 = some samplePackage.ErrNoChanges ∧
    (Checkout.CommitAndPush samplePackage sampleJson quietSub sampleCheckout sampleAction
      (some ("{}" : GoString)) []).2
        = (check quietSub sampleCheckout.dir sampleCheckout.config.Path []).2 ∧
    (Checkout.CommitAndPush samplePackage sampleJson quietSub sampleCheckout sampleAction
      (some ("{}" : GoString)) []).2.length = 1 ∧
    ∀ x ∈ (Checkout.CommitAndPush samplePackage sampleJson quietSub sampleCheckout sampleAction
      (some ("{}" : GoString)) []).2, ¬ x.isCommit ∧ ¬ x.isNote ∧ ¬ x.isPush :=
  commitAndPush_no_changes samplePackage sampleJson quietSub sampleCheckout sampleAction
    (some ("{}" : GoString)) rfl rfl

/-- **C3.** In a run of `Checkout.CommitAndPush` that reaches the push step,
that is, issues the existence check `rev-list realNotesRef`: no push precedes
the check; when the check succeeds one push follows, of
`[Branch, realNotesRef]` to the upstream URL; when the check reports an unknown
revision one push follows, of `[Branch]`; in both cases that push is the only
push of the run, nothing comes after it, and a failed push is returned as
`PushError` of the upstream URL and the error of `push`; when the check fails
in another way its error is returned and the run holds no push. -/
theorem commitAndPush_push_step {ν : Type} (pkg : Package) (js : Json ν) (sub : Subprocess)
    (c : Checkout) (a : CommitAction) (note : Option ν) (i : Nat) (e5 : Entry)
    (hi : (Checkout.CommitAndPush pkg js sub c a note []).2.get? i = some e5)
    (h5 : e5.call.args = [("rev-list" : GoString), c.realNotesRef]) :
    (∀ x ∈ (Checkout.CommitAndPush pkg js sub c a note []).2.take i, ¬ x.isPush) ∧
    (e5.err = none →
      ∃ e6, (Checkout.CommitAndPush pkg js sub c a note []).2.drop (i + 1) = [e6] ∧
        (∀ x ∈ (Checkout.CommitAndPush pkg js sub c a note []).2, x.isPush → x = e6) ∧
        e6.call.args = [("push" : GoString), c.upstream.URL, c.config.Branch, c.realNotesRef] ∧
        (Checkout.CommitAndPush pkg js sub c a note []).1 =
          e6.err.map (fun err => pkg.PushError c.upstream.URL
            (.wrap err (("git push " : GoString) ++ c.upstream.URL ++
              ' ' :: fmtStrings [c.config.Branch, c.realNotesRef])))) ∧
    (∀ x5, e5.err = some x5 →
      stringsContains x5.Error ("unknown revision" : GoString) = true →
      ∃ e6, (Checkout.CommitAndPush pkg js sub c a note []).2.drop (i + 1) = [e6] ∧
        (∀ x ∈ (Checkout.CommitAndPush pkg js sub c a note []).2, x.isPush → x = e6) ∧
        e6.call.args = [("push" : GoString), c.upstream.URL, c.config.Branch] ∧
        (Checkout.CommitAndPush pkg js sub c a note []).1 =
          e6.err.map (fun err => pkg.PushError c.upstream.URL
            (.wrap err (("git push " : GoString) ++ c.upstream.URL ++
              ' ' :: fmtStrings [c.config.Branch])))) ∧
    (∀ x5, e5.err = some x5 →
      stringsContains x5.Error ("unknown revision" : GoString) = false →
      (Checkout.CommitAndPush pkg js sub c a note []).2.drop (i + 1) = [] ∧
      (∀ x ∈ (Checkout.CommitAndPush pkg js sub c a note []).2, ¬ x.isPush) ∧
      (Checkout.CommitAndPush pkg js sub c a note []).1 = some x5) := by
  revert hi
  refine CommitAndPush_cases pkg js sub c a note
    (fun r => r.2.get? i = some e5 →
      (∀ x ∈ r.2.take i, ¬ x.isPush) ∧
      (e5.err = none →
        ∃ e6, r.2.drop (i + 1) = [e6] ∧ (∀ x ∈ r.2, x.isPush → x = e6) ∧
          e6.call.args =
            [("push" : GoString), c.upstream.URL, c.config.Branch, c.realNotesRef] ∧
          r.1 = e6.err.map (fun err => pkg.PushError c.upstream.URL
            (.wrap err (("git push " : GoString) ++ c.upstream.URL ++
              ' ' :: fmtStrings [c.config.Branch, c.realNotesRef])))) ∧
      (∀ x5, e5.err = some x5 →
        stringsContains x5.Error ("unknown revision" : GoString) = true →
        ∃ e6, r.2.drop (i + 1) = [e6] ∧ (∀ x ∈ r.2, x.isPush → x = e6) ∧
          e6.call.args = [("push" : GoString), c.upstream.URL, c.config.Branch] ∧
          r.1 = e6.err.map (fun err => pkg.PushError c.upstream.URL
            (.wrap err (("git push " : GoString) ++ c.upstream.URL ++
              ' ' :: fmtStrings [c.config.Branch])))) ∧
      (∀ x5, e5.err = some x5 →
        stringsContains x5.Error ("unknown revision" : GoString) = false →
        r.2.drop (i + 1) = [] ∧ (∀ x ∈ r.2, ¬ x.isPush) ∧ r.1 = some x5))
    ?_ ?_ ?_ ?_ ?_ ?_ ?_
  · intro e1 a1 h1 hi
    rcases i with _ | i <;> simp at hi
    subst hi
    simp [a1] at h5
  · intro e1 e2 x1 x2 a1 h1 a2 h2 hi
    have c2 := commitArgs_head { Author := a.Author, Message := a.Message ++ c.config.SkipMessage }
    rcases i with _ | _ | i <;> simp at hi <;> subst hi
    · simp [a1] at h5
    · rw [← a2, h5] at c2
      simp at c2
  · intro e1 e2 e3 x1 x3 n a1 h1 a2 h2 _ a3 h3 hi
    have c2 := commitArgs_head { Author := a.Author, Message := a.Message ++ c.config.SkipMessage }
    rcases i with _ | _ | _ | i <;> simp at hi <;> subst hi
    · simp [a1] at h5
    · rw [← a2, h5] at c2
      simp at c2
    · simp [a3] at h5
  · intro e1 e2 e3 x1 x n a1 h1 a2 h2 _ a3 h3 _ hi
    have c2 := commitArgs_head { Author := a.Author, Message := a.Message ++ c.config.SkipMessage }
    rcases i with _ | _ | _ | i <;> simp at hi <;> subst hi
    · simp [a1] at h5
    · rw [← a2, h5] at c2
      simp at c2
    · simp [a3] at h5
  · intro e1 e2 e3 e4 x1 x4 n b a1 h1 a2 h2 _ a3 h3 _ a4 h4 hi
    have c2 := commitArgs_head { Author := a.Author, Message := a.Message ++ c.config.SkipMessage }
    rcases i with _ | _ | _ | _ | i <;> simp at hi <;> subst hi
    · simp [a1] at h5
    · rw [← a2, h5] at c2
      simp at c2
    · simp [a3] at h5
    · simp [a4] at h5
  · intro e1 e2 e5' nt x1 x5 a1 h1 a2 h2 hnt a5 h5' hu hi
    simp only [String.toList] at hu
    have c2 := commitArgs_head { Author := a.Author, Message := a.Message ++ c.config.SkipMessage }
    rcases hnt with ⟨_, rfl⟩ | ⟨n, b, e3, e4, _, _, rfl, a3, h3, a4, h4⟩
    · rcases i with _ | _ | _ | i <;> simp at hi <;> subst hi
      · simp [a1] at h5
      · rw [← a2, h5] at c2
        simp at c2
      · simp [Entry.isPush, a1, a2, c2, a5, h5', hu]
    · rcases i with _ | _ | _ | _ | _ | i <;> simp at hi <;> subst hi
      · simp [a1] at h5
      · rw [← a2, h5] at c2
        simp at c2
      · simp [a3] at h5
      · simp [a4] at h5
      · simp [Entry.isPush, a1, a2, c2, a3, a4, a5, h5', hu]
  · intro e1 e2 e5' e6 nt x1 refs a1 h1 a2 h2 hnt a5 hrefs a6 hi
    have c2 := commitArgs_head { Author := a.Author, Message := a.Message ++ c.config.SkipMessage }
    rcases hnt with ⟨_, rfl⟩ | ⟨n, b, e3, e4, _, _, rfl, a3, h3, a4, h4⟩
    · rcases i with _ | _ | _ | _ | i <;> simp at hi <;> subst hi
      · simp [a1] at h5
      · rw [← a2, h5] at c2
        simp at c2
      · rcases hrefs with ⟨h5', rfl⟩ | ⟨⟨x5, h5', hu⟩, rfl⟩
        · simp [Entry.isPush, a1, a2, c2, a5, h5', a6]
        · simp only [String.toList] at hu
          simp [Entry.isPush, a1, a2, c2, a5, h5', hu, a6]
      · simp [a6] at h5
    · rcases i with _ | _ | _ | _ | _ | _ | i <;> simp at hi <;> subst hi
      · simp [a1] at h5
      · rw [← a2, h5] at c2
        simp at c2
      · simp [a3] at h5
      · simp [a4] at h5
      · rcases hrefs with ⟨h5', rfl⟩ | ⟨⟨x5, h5', hu⟩, rfl⟩
        · simp [Entry.isPush, a1, a2, c2, a3, a4, a5, h5', a6]
        · simp only [String.toList] at hu
          simp [Entry.isPush, a1, a2, c2, a3, a4, a5, h5', hu, a6]
      · simp [a6] at h5

/-- The statement of C3 at the sample checkout with local changes: the
existence check is the third subprocess and succeeds, and one push of the
branch and the notes ref follows. -/
theorem commitAndPush_push_step_witness :
    (Checkout.CommitAndPush samplePackage sampleJson dirtySub sampleCheckout sampleAction
      none []).2.get? 2 = some sampleExistsEntry ∧
    ∃ e6, (Checkout.CommitAndPush samplePackage sampleJson dirtySub sampleCheckout sampleAction
        none []).2.drop (2 + 1) = [e6] ∧
      (∀ x ∈ (Checkout.CommitAndPush samplePackage sampleJson dirtySub sampleCheckout
        sampleAction none []).2, x.isPush → x = e6) ∧
      e6.call.args = [("push" : GoString), sampleCheckout.upstream.URL,
        sampleCheckout.config.Branch, sampleCheckout.realNotesRef] ∧
      (Checkout.CommitAndPush samplePackage sampleJson dirtySub sampleCheckout sampleAction
        none []).1 =
        e6.err.map (fun err => samplePackage.PushError sampleCheckout.upstream.URL
          (.wrap err (("git push " : GoString) ++ sampleCheckout.upstream.URL ++
            ' ' :: fmtStrings [sampleCheckout.config.Branch, sampleCheckout.realNotesRef]))) :=
  ⟨by decide,
    (commitAndPush_push_step samplePackage sampleJson dirtySub sampleCheckout sampleAction
      none 2 sampleExistsEntry (by decide) (by decide)).2.1 (by decide)⟩

/-! ## The note commands

What the code fixes about notes is the arguments it hands to `git notes`;
where git keeps a note and what it prints back is the environment's part. -/

/-- A run of `Checkout.CommitAndPush` with a note that returns nil has issued,
as its third and fourth subprocess, the lookup of the head revision and a
successful `notes --ref config.NotesRef add -m` of the marshalled note for
the revision that lookup printed. -/
theorem commitAndPush_note_arguments {ν : Type} (pkg : Package) (js : Json ν)
    (sub : Subprocess) (c : Checkout) (a : CommitAction) (n : ν)
    (hres : (Checkout.CommitAndPush pkg js sub c a (some n) []).1 = none) :
    ∃ (b : GoString) (e3 e4 : Entry), js.Marshal n = .ok b ∧
      (Checkout.CommitAndPush pkg js sub c a (some n) []).2.get? 2 = some e3 ∧
      (Checkout.CommitAndPush pkg js sub c a (some n) []).2.get? 3 = some e4 ∧
      e3.call.args = [("rev-list" : GoString), ("--max-count" : GoString), ("1" : GoString),
        ("HEAD" : GoString)] ∧
      e4.call.args = [("notes" : GoString), ("--ref" : GoString), c.config.NotesRef,
        ("add" : GoString), ("-m" : GoString), b, trimSpace e3.result.stdout] ∧
      e4.err = none := by
  revert hres
  refine CommitAndPush_cases pkg js sub c a (some n)
    (fun r => r.1 = none →
      ∃ (b : GoString) (e3 e4 : Entry), js.Marshal n = .ok b ∧
        r.2.get? 2 = some e3 ∧ r.2.get? 3 = some e4 ∧
        e3.call.args = [("rev-list" : GoString), ("--max-count" : GoString),
          ("1" : GoString), ("HEAD" : GoString)] ∧
        e4.call.args = [("notes" : GoString), ("--ref" : GoString), c.config.NotesRef,
          ("add" : GoString), ("-m" : GoString), b, trimSpace e3.result.stdout] ∧
        e4.err = none)
    ?_ ?_ ?_ ?_ ?_ ?_ ?_
  · intro e1 _ _ h
    simp at h
  · intro e1 e2 x1 x2 _ _ _ _ h
    simp at h
  · intro e1 e2 e3 x1 x3 m _ _ _ _ _ _ _ h
    simp at h
  · intro e1 e2 e3 x1 x m _ _ _ _ _ _ _ _ h
    simp at h
  · intro e1 e2 e3 e4 x1 x4 m b _ _ _ _ _ _ _ _ _ _ h
    simp at h
  · intro e1 e2 e5 nt x1 x5 _ _ _ _ _ _ _ _ h
    simp at h
  · intro e1 e2 e5 e6 nt x1 refs _ _ _ _ hnt _ _ _ _
    rcases hnt with ⟨h, _⟩ | ⟨m, b, e3, e4, hm, hb, rfl, a3, h3, a4, h4⟩
    · simp at h
    · have : m = n := by simpa using hm.symm
      subst this
      exact ⟨b, e3, e4, hb, by simp, by simp, a3, a4, h4⟩

/-- `Checkout.GetNote` issues one subprocess, `notes --ref realNotesRef show`
for the revision asked, and when it succeeds hands back what `json` decodes
from its output. -/
theorem getNote_arguments {ν : Type} (js : Json ν) (toLower : GoString → GoString)
    (sub : Subprocess) (c : Checkout) (rev : GoString) (tr : Trace) :
    (Checkout.GetNote js toLower sub c rev tr).2 =
      tr ++ [issue sub c.dir [("notes" : GoString), ("--ref" : GoString), c.realNotesRef,
        ("show" : GoString), rev] tr] ∧
    ((issue sub c.dir [("notes" : GoString), ("--ref" : GoString), c.realNotesRef,
        ("show" : GoString), rev] tr).err = none →
      ∀ m, js.Decode (issue sub c.dir [("notes" : GoString), ("--ref" : GoString),
          c.realNotesRef, ("show" : GoString), rev] tr).result.stdout = .ok m →
        (Checkout.GetNote js toLower sub c rev tr).1.ok = true ∧
        (Checkout.GetNote js toLower sub c rev tr).1.note = some m) := by
  constructor
  · simp only [Checkout.GetNote, getNote, execGitCmd]
    split
    · split <;> rfl
    · split <;> rfl
  · intro he m hm
    simp only [Checkout.GetNote, getNote, execGitCmd, he, hm, and_self]

/-! ## Error classification -/

theorem trimRightFunc_initial (p : Char → Bool) (s : GoString) :
    trimRightFunc p s <+: s := by
  unfold trimRightFunc
  exact List.rdropWhile_prefix p s

theorem stringsTrim_part (s cutset : GoString) : List.IsInfix (stringsTrim s cutset) s := by
  unfold stringsTrim
  exact (trimRightFunc_initial _ _).isInfix.trans (List.dropWhile_suffix _).isInfix

theorem findErrorMessageLoop_no_marker (ts : List GoString)
    (h : ∀ t ∈ ts, hasMarker t = false) : findErrorMessageLoop ts = [] := by
  induction ts with
  | nil => rfl
  | cons t ts ih =>
    have ht := h t (List.mem_cons_self _ _)
    simp only [hasMarker, Bool.or_eq_false_iff] at ht
    simp only [findErrorMessageLoop, ht.1.1, ht.1.2, ht.2, Bool.false_eq_true, ↓reduceIte]
    exact ih (fun u hu => h u (List.mem_cons_of_mem _ hu))

theorem findErrorMessageLoop_first (pre : List GoString) (l : GoString) (post : List GoString)
    (hpre : ∀ t ∈ pre, hasMarker t = false) :
    findErrorMessageLoop (pre ++ l :: post) = findErrorMessageLoop (l :: post) := by
  induction pre with
  | nil => rfl
  | cons t ts ih =>
    have ht := hpre t (List.mem_cons_self _ _)
    simp only [hasMarker, Bool.or_eq_false_iff] at ht
    simp only [List.cons_append, findErrorMessageLoop, ht.1.1, ht.1.2, ht.2, Bool.false_eq_true,
      ↓reduceIte]
    simpa [findErrorMessageLoop] using ih (fun u hu => hpre u (List.mem_cons_of_mem _ hu))

/-- What `findErrorMessage` returns.  Among the lines the scanner delivers
from the captured stderr it answers for the first one that begins with a
marker: a line beginning with `fatal: ` or `ERROR fatal: ` is returned as it
is, and for a line beginning with `error:` the result is
`strings.Trim(line, "error: ")`.  When no line begins with a marker the
result is empty, and then, the context being alive, `execGitCmd` returns the
raw process error. -/
theorem findErrorMessage_first_marker (stderr : GoString) :
    (∀ (pre : List GoString) (l : GoString) (post : List GoString),
      scanLines stderr = pre ++ l :: post → (∀ t ∈ pre, hasMarker t = false) →
      hasMarker l = true →
        ((stringsHasPrefix l "fatal: " = true ∨ stringsHasPrefix l "ERROR fatal: " = true) →
          findErrorMessage stderr = l) ∧
        (stringsHasPrefix l "fatal: " = false → stringsHasPrefix l "ERROR fatal: " = false →
          findErrorMessage stderr = stringsTrim l ("error: " : GoString))) ∧
    ((∀ t ∈ scanLines stderr, hasMarker t = false) → findErrorMessage stderr = []) ∧
    (∀ (args : List GoString) (r : ProcResult) (e : GoError),
      r.stderr = stderr → (∀ t ∈ scanLines stderr, hasMarker t = false) →
      r.runErr = some e → r.ctxErr = .none → execGitCmdErr args r = some e) := by
  refine ⟨?_, ?_, ?_⟩
  · intro pre l post hs hpre hl
    have hfind : findErrorMessage stderr = findErrorMessageLoop (l :: post) := by
      unfold findErrorMessage
      rw [hs]
      exact findErrorMessageLoop_first pre l post hpre
    rw [hfind]
    simp only [hasMarker, String.toList] at hl
    by_cases h1 : stringsHasPrefix l "fatal: " = true
    · simp only [String.toList] at h1
      simp [findErrorMessageLoop, h1]
    · by_cases h2 : stringsHasPrefix l "ERROR fatal: " = true
      · simp only [String.toList] at h1 h2
        simp [findErrorMessageLoop, h1, h2]
      · simp only [String.toList] at h1 h2
        have h3 : stringsHasPrefix l ['e', 'r', 'r', 'o', 'r', ':'] = true := by
          simpa [h1, h2] using hl
        simp [findErrorMessageLoop, h1, h2, h3]
  · intro h
    exact findErrorMessageLoop_no_marker _ h
  · intro args r e hr h hrun hctx
    have hmsg : findErrorMessage r.stderr = [] := by
      rw [hr]
      exact findErrorMessageLoop_no_marker _ h
    simp [execGitCmdErr, hrun, hctx, hmsg]

/-- On a line `error: ` followed by a text that neither begins nor ends with
one of the characters `e`, `r`, `o`, `:` or the blank, `strings.Trim` with the
cutset `error: ` does what the code is after: it takes the marker off. -/
theorem stringsTrim_takes_marker_off (rest : GoString)
    (hfirst : ∀ c, rest.head? = some c → c ∉ ("error: " : GoString))
    (hlast : ∀ c, rest.getLast? = some c → c ∉ ("error: " : GoString)) :
    stringsTrim (("error: " : GoString) ++ rest) ("error: " : GoString) = rest := by
  have hdrop : ((("error: " : GoString) ++ rest).dropWhile
      (fun c => ("error: " : GoString).contains c)) = rest := by
    rw [List.dropWhile_append_of_pos (by decide)]
    cases rest with
    | nil => rfl
    | cons c cs =>
      have hc := hfirst c rfl
      have : (String.toList "error: ").contains c = false := by
        simpa using hc
      simp only [List.dropWhile_cons, this, Bool.false_eq_true, ↓reduceIte]
  unfold stringsTrim
  rw [hdrop]
  unfold trimRightFunc
  cases hr : rest.reverse with
  | nil =>
    have : rest = [] := List.reverse_eq_nil_iff.mp hr
    simp [this]
  | cons d ds =>
    have hd : rest.getLast? = some d := by
      rw [List.getLast?_eq_head?_reverse, hr]
      rfl
    have hc := hlast d hd
    have : (String.toList "error: ").contains d = false := by
      simpa using hc
    simp only [List.dropWhile_cons, this, Bool.false_eq_true, ↓reduceIte]
    rw [← hr, List.reverse_reverse]

/-- The stderr of a rejected push: the line after `error: ` begins with `f`
and ends with a quote, and `findErrorMessage` returns it without the
marker. -/
theorem findErrorMessage_error_line_without_marker :
    findErrorMessage ("error: failed to push some refs to 'origin'\n" : GoString)
      = ("failed to push some refs to 'origin'" : GoString) := by
  decide

/-- **C5.** The code at the failing input: the stderr of `git remote add` for
a remote that exists, one line that begins with the marker `error:`.
`strings.Trim` takes `error: ` for a set of characters and goes on past the
marker, through the `re` of `remote`: what `findErrorMessage` returns is
neither that line nor that line without its marker. -/
theorem findErrorMessage_error_line_trimmed :
    scanLines ("error: remote origin already exists.\n" : GoString)
      = [("error: remote origin already exists." : GoString)] ∧
    stringsHasPrefix ("error: remote origin already exists." : GoString) "error:" = true ∧
    findErrorMessage ("error: remote origin already exists.\n" : GoString)
      = ("mote origin already exists." : GoString) ∧
    findErrorMessage ("error: remote origin already exists.\n" : GoString)
      ≠ ("error: remote origin already exists." : GoString) ∧
    findErrorMessage ("error: remote origin already exists.\n" : GoString)
      ≠ ("remote origin already exists." : GoString) := by
  decide

/-- The scanner of `findErrorMessage` gives up at a line of 64 KiB or more:
nothing is found from there on, whatever markers follow. -/
theorem findErrorMessage_after_long_line (l rest : GoString) (hl : ∀ c ∈ l, c ≠ '\n')
    (hlong : maxScanTokenSize ≤ byteLen l) :
    findErrorMessage (l ++ '\n' :: rest) = [] := by
  obtain ⟨p, ps, hps⟩ : ∃ p ps, splitSep '\n' rest = p :: ps := by
    cases h : splitSep '\n' rest with
    | nil => exact absurd h (splitSep_ne_nil _ _)
    | cons p ps => exact ⟨p, ps, rfl⟩
  have hsplit : splitSep '\n' (l ++ '\n' :: rest) = l :: p :: ps := by
    rw [splitSep_append, splitSep_of_no_sep '\n' l hl, hps]
    rfl
  have hraw : ∃ qs, rawLines (l ++ '\n' :: rest) = l :: qs := by
    unfold rawLines
    simp only [hsplit]
    split
    · exact ⟨(p :: ps).dropLast, by simp [List.dropLast]⟩
    · exact ⟨p :: ps, rfl⟩
  obtain ⟨qs, hqs⟩ := hraw
  have hnot : ¬ byteLen l < maxScanTokenSize := by omega
  unfold findErrorMessage scanLines
  rw [hqs]
  simp only [List.takeWhile_cons, hnot, decide_False, Bool.false_eq_true, ↓reduceIte,
    List.map_nil, findErrorMessageLoop]

/-- **C6.** Whatever the subprocess did (exit status, stderr, raw error):
when `ctx.Err()` after the run is the deadline, `execGitCmd` returns the
deadline error wrapped with `running git command: git [args]`; when it is the
cancellation, the cancellation error wrapped with `context was unexpectedly
cancelled when running git command: git [args]`.  The returned value is
determined by the context error and the arguments alone, and its text ends in
the name of the condition. -/
theorem execGitCmd_context_error (sub : Subprocess) (dir : GoString) (args : List GoString)
    (tr : Trace) :
    ((issue sub dir args tr).result.ctxErr = .deadlineExceeded →
      (execGitCmd sub dir args tr).1.1 =
        some (.wrap .deadlineExceeded
          (("running git command: git " : GoString) ++ fmtStrings args)) ∧
      ∃ err, (execGitCmd sub dir args tr).1.1 = some err ∧
        err.Cause = .deadlineExceeded ∧
        err.Error = ("running git command: git " : GoString) ++ fmtStrings args ++
          (": context deadline exceeded" : GoString)) ∧
    ((issue sub dir args tr).result.ctxErr = .canceled →
      (execGitCmd sub dir args tr).1.1 =
        some (.wrap .canceled
          (("context was unexpectedly cancelled when running git command: git " : GoString)
            ++ fmtStrings args)) ∧
      ∃ err, (execGitCmd sub dir args tr).1.1 = some err ∧
        err.Cause = .canceled ∧
        err.Error =
          ("context was unexpectedly cancelled when running git command: git " : GoString)
            ++ fmtStrings args ++ (": context canceled" : GoString)) ∧
    (∀ r r' : ProcResult, r.ctxErr = r'.ctxErr → r.ctxErr ≠ .none →
      execGitCmdErr args r = execGitCmdErr args r') := by
  refine ⟨?_, ?_, ?_⟩
  · intro h
    have h1 : (execGitCmd sub dir args tr).1.1 =
        some (.wrap .deadlineExceeded
          (("running git command: git " : GoString) ++ fmtStrings args)) := by
      simp only [execGitCmd, issue] at h ⊢
      simp [execGitCmdErr, h]
    exact ⟨h1, _, h1, rfl, by simp [GoError.Error]⟩
  · intro h
    have h1 : (execGitCmd sub dir args tr).1.1 =
        some (.wrap .canceled
          (("context was unexpectedly cancelled when running git command: git " : GoString)
            ++ fmtStrings args)) := by
      simp only [execGitCmd, issue] at h ⊢
      simp [execGitCmdErr, h]
    exact ⟨h1, _, h1, rfl, by simp [GoError.Error]⟩
  · intro r r' hrr hne
    unfold execGitCmdErr
    rw [← hrr]
    cases h : r.ctxErr with
    | none => exact absurd h hne
    | deadlineExceeded => simp
    | canceled => simp

/-! ## An expired context -/

theorem issue_expired (sub : Subprocess)
    (hexp : ∀ tr call, (sub tr call).ctxErr = .deadlineExceeded)
    (d : GoString) (args : List GoString) (tr : Trace) :
    (issue sub d args tr).err = some (deadlineError args) := by
  simp [issue, execGitCmdErr, hexp, deadlineError]

/-- **C7, as amended.** Under a context that has expired (every `ctx.Err()`
is the deadline): `clone`, `mirror`, `checkPush`, `push`, `moveTagAndPush`,
`Checkout.CommitAndPush` and `Checkout.MoveSyncTagAndPush` return, for all
arguments, an error whose cause is the deadline; `fetch`, `refExists`,
`getNote` and `Checkout.GetNote` do so whenever the text of the deadline error
of their subprocess, which repeats the git arguments, does not contain the
marker the operation reads as an expected absence. -/
theorem expired_context_returns_deadline {ν : Type} (pkg : Package) (js : Json ν)
    (toLower : GoString → GoString) (sub : Subprocess)
    (hexp : ∀ tr call, (sub tr call).ctxErr = .deadlineExceeded) :
    (∀ d url br tr, ∃ e, (clone sub d url br tr).1.2 = some e ∧
      e.Cause = .deadlineExceeded) ∧
    (∀ d url tr, ∃ e, (mirror sub d url tr).1.2 = some e ∧ e.Cause = .deadlineExceeded) ∧
    (∀ d up tr, ∃ e, (checkPush pkg sub d up tr).1 = some e ∧
      e.Cause = .deadlineExceeded) ∧
    (∀ d up refs tr, ∃ e, (push sub d up refs tr).1 = some e ∧
      e.Cause = .deadlineExceeded) ∧
    (∀ d tag ref msg up tr, ∃ e, (moveTagAndPush sub d tag ref msg up tr).1 = some e ∧
      e.Cause = .deadlineExceeded) ∧
    (∀ c a (note : Option ν) tr, ∃ e,
      (Checkout.CommitAndPush pkg js sub c a note tr).1 = some e ∧
      e.Cause = .deadlineExceeded) ∧
    (∀ c ref msg tr, ∃ e, (Checkout.MoveSyncTagAndPush sub c ref msg tr).1 = some e ∧
      e.Cause = .deadlineExceeded) ∧
    (∀ d up refspec tr,
      stringsContains
        (deadlineError ([("fetch" : GoString), ("--tags" : GoString), up] ++ refspec)).Error
        ("Couldn't find remote ref" : GoString) = false →
      ∃ e, (fetch sub d up refspec tr).1 = some e ∧ e.Cause = .deadlineExceeded) ∧
    (∀ d ref tr,
      stringsContains (deadlineError [("rev-list" : GoString), ref]).Error
        ("unknown revision" : GoString) = false →
      ∃ e, (refExists sub d ref tr).1 = (false, some e) ∧ e.Cause = .deadlineExceeded) ∧
    (∀ d notesRef rev tr,
      stringsContains
        (toLower (deadlineError [("notes" : GoString), ("--ref" : GoString), notesRef,
          ("show" : GoString), rev]).Error)
        ("no note found for object" : GoString) = false →
      ∃ e, (getNote js toLower sub d notesRef rev tr).1.ok = false ∧
        (getNote js toLower sub d notesRef rev tr).1.err = some e ∧
        e.Cause = .deadlineExceeded) ∧
    (∀ (c : Checkout) rev tr,
      stringsContains
        (toLower (deadlineError [("notes" : GoString), ("--ref" : GoString), c.realNotesRef,
          ("show" : GoString), rev]).Error)
        ("no note found for object" : GoString) = false →
      ∃ e, (Checkout.GetNote js toLower sub c rev tr).1.ok = false ∧
        (Checkout.GetNote js toLower sub c rev tr).1.err = some e ∧
        e.Cause = .deadlineExceeded) := by
  have hgn : ∀ d notesRef rev tr,
      stringsContains
        (toLower (deadlineError [("notes" : GoString), ("--ref" : GoString), notesRef,
          ("show" : GoString), rev]).Error)
        ("no note found for object" : GoString) = false →
      ∃ e, (getNote js toLower sub d notesRef rev tr).1.ok = false ∧
        (getNote js toLower sub d notesRef rev tr).1.err = some e ∧
        e.Cause = .deadlineExceeded := by
    intro d notesRef rev tr h
    simp only [getNote, execGitCmd, issue_expired sub hexp, h, Bool.false_eq_true, ↓reduceIte]
    exact ⟨_, trivial, rfl, rfl⟩
  have hmt : ∀ d tag ref msg up tr, ∃ e, (moveTagAndPush sub d tag ref msg up tr).1 = some e ∧
      e.Cause = .deadlineExceeded := by
    intro d tag ref msg up tr
    simp only [moveTagAndPush, execGitCmd, issue_expired sub hexp]
    exact ⟨_, rfl, rfl⟩
  refine ⟨?_, ?_, ?_, ?_, hmt, ?_, ?_, ?_, ?_, hgn, ?_⟩
  · intro d url br tr
    simp only [clone, execGitCmd, issue_expired sub hexp]
    exact ⟨_, rfl, rfl⟩
  · intro d url tr
    simp only [mirror, execGitCmd, issue_expired sub hexp]
    exact ⟨_, rfl, rfl⟩
  · intro d up tr
    simp only [checkPush, execGitCmd, issue_expired sub hexp]
    exact ⟨_, rfl, rfl⟩
  · intro d up refs tr
    simp only [push, execGitCmd, issue_expired sub hexp]
    exact ⟨_, rfl, rfl⟩
  · intro c a note tr
    simp only [Checkout.CommitAndPush, check_eq, commit_eq, issue_expired sub hexp,
      Option.isSome_some, Bool.not_true, Bool.false_eq_true, ↓reduceIte, Option.map_some']
    exact ⟨_, rfl, rfl⟩
  · intro c ref msg tr
    exact hmt _ _ _ _ _ _
  · intro d up refspec tr h
    simp only [fetch, execGitCmd, issue_expired sub hexp, h, Bool.not_false, ↓reduceIte]
    exact ⟨_, rfl, rfl⟩
  · intro d ref tr h
    simp only [refExists, execGitCmd, issue_expired sub hexp, h, Bool.false_eq_true, ↓reduceIte]
    exact ⟨_, rfl, rfl⟩
  · intro c rev tr h
    exact hgn _ _ _ _ h

/-- **C7, counterexample.** The context has expired and `fetch`, asked for a
refspec that spells the marker of a missing remote ref, returns nil: the text
of the deadline error repeats the arguments and is taken for the absence. -/
theorem fetch_expired_returns_nil :
    (∀ tr call, (expiredSub tr call).ctxErr = .deadlineExceeded) ∧
    (fetch expiredSub ("/tmp/clone" : GoString) ("origin" : GoString)
      [("Couldn't find remote ref" : GoString)] []).1 = none :=
  ⟨fun _ _ => rfl, by decide⟩

/-- The statement of C7 in the expired sample environment, for a push and for
a fetch of an ordinary refspec. -/
theorem expired_context_returns_deadline_witness :
    (∃ e, (push expiredSub ("/tmp/clone" : GoString) ("origin" : GoString)
        [("main" : GoString)] []).1 = some e ∧ e.Cause = .deadlineExceeded) ∧
    (∃ e, (fetch expiredSub ("/tmp/clone" : GoString) ("origin" : GoString)
        [("refs/heads/main" : GoString)] []).1 = some e ∧ e.Cause = .deadlineExceeded) :=
  ⟨(expired_context_returns_deadline samplePackage sampleJson asciiToLower expiredSub
      (fun _ _ => rfl)).2.2.2.1 _ _ _ _,
    (expired_context_returns_deadline samplePackage sampleJson asciiToLower expiredSub
      (fun _ _ => rfl)).2.2.2.2.2.2.2.1 _ _ _ _ (by decide)⟩

/-! ## Expected absence -/

/-- **C8.** A failure of the subprocess of `fetch`, `refExists` or `getNote`
whose text holds the marker of an expected absence gives the negative result
with a nil error: `fetch` returns nil on `Couldn't find remote ref`,
`refExists` returns `(false, nil)` on `unknown revision`, `getNote` returns
`(false, nil)` on `no note found for object` in the lower-cased text, hence
on that marker in any letter case when lower-casing works character by
character.  Every other failure is returned as a non-nil error, `refExists`
and `getNote` reporting false beside it. -/
theorem expected_absence_is_not_an_error {ν : Type} (js : Json ν)
    (toLower : GoString → GoString) (sub : Subprocess) (d : GoString) (tr : Trace) :
    (∀ up refspec err,
      (issue sub d ([("fetch" : GoString), ("--tags" : GoString), up] ++ refspec) tr).err
        = some err →
      (stringsContains err.Error ("Couldn't find remote ref" : GoString) = true →
        (fetch sub d up refspec tr).1 = none) ∧
      (stringsContains err.Error ("Couldn't find remote ref" : GoString) = false →
        (fetch sub d up refspec tr).1 = some (.wrap err
          (("git fetch --tags " : GoString) ++ up ++ ' ' :: fmtStrings refspec)))) ∧
    (∀ ref err,
      (issue sub d [("rev-list" : GoString), ref] tr).err = some err →
      (stringsContains err.Error ("unknown revision" : GoString) = true →
        (refExists sub d ref tr).1 = (false, none)) ∧
      (stringsContains err.Error ("unknown revision" : GoString) = false →
        (refExists sub d ref tr).1 = (false, some err))) ∧
    (∀ notesRef rev err,
      (issue sub d [("notes" : GoString), ("--ref" : GoString), notesRef,
        ("show" : GoString), rev] tr).err = some err →
      (stringsContains (toLower err.Error) ("no note found for object" : GoString) = true →
        (getNote js toLower sub d notesRef rev tr).1.ok = false ∧
        (getNote js toLower sub d notesRef rev tr).1.err = none) ∧
      (stringsContains (toLower err.Error) ("no note found for object" : GoString) = false →
        (getNote js toLower sub d notesRef rev tr).1.ok = false ∧
        (getNote js toLower sub d notesRef rev tr).1.err = some err)) ∧
    (∀ (lower : Char → Char) notesRef rev err (variant : GoString),
      (∀ s, toLower s = s.map lower) →
      variant.map lower = ("no note found for object" : GoString) →
      (issue sub d [("notes" : GoString), ("--ref" : GoString), notesRef,
        ("show" : GoString), rev] tr).err = some err →
      stringsContains err.Error variant = true →
        (getNote js toLower sub d notesRef rev tr).1.ok = false ∧
        (getNote js toLower sub d notesRef rev tr).1.err = none) := by
  refine ⟨?_, ?_, ?_, ?_⟩
  · intro up refspec err he
    constructor <;> intro h <;>
      simp only [fetch, execGitCmd, he, h, Bool.not_true, Bool.not_false, Bool.false_eq_true,
        ↓reduceIte]
  · intro ref err he
    constructor <;> intro h <;>
      simp only [refExists, execGitCmd, he, h, Bool.false_eq_true, ↓reduceIte]
  · intro notesRef rev err he
    constructor <;> intro h <;>
      simp only [getNote, execGitCmd, he, h, Bool.false_eq_true, ↓reduceIte, and_self]
  · intro lower notesRef rev err variant hl hv he hc
    have h : stringsContains (toLower err.Error) ("no note found for object" : GoString)
        = true := by
      rw [hl, ← hv]
      exact stringsContains_map lower _ _ hc
    simp only [getNote, execGitCmd, he, h, ↓reduceIte, and_self]

/-! ## Changed files -/

/-- **C9.** When `config.Path` begins with `/`, `Checkout.ChangedFiles`
returns a non-nil error with two empty lists and leaves the history as it
was: it issues no subprocess. -/
theorem changedFiles_rejects_leading_slash (sub : Subprocess) (c : Checkout) (ref : GoString)
    (tr : Trace) (h : c.config.Path.head? = some '/') :
    (Checkout.ChangedFiles sub c ref tr).1.1 = [] ∧
    (Checkout.ChangedFiles sub c ref tr).1.2.1 = [] ∧
    (Checkout.ChangedFiles sub c ref tr).1.2.2
      = some (.new ("git subdirectory should not have leading forward slash" : GoString)) ∧
    (Checkout.ChangedFiles sub c ref tr).1.2.2 ≠ none ∧
    (Checkout.ChangedFiles sub c ref tr).2 = tr := by
  simp [Checkout.ChangedFiles, changedFiles, h]

/-- The statement of C9 at the sample checkout with the path `/manifests`. -/
theorem changedFiles_rejects_leading_slash_witness :
    (Checkout.ChangedFiles quietSub
      { sampleCheckout with config := { sampleConfig with Path := "/manifests" } }
      ("HEAD~1" : GoString) []).1.1 = [] ∧
    (Checkout.ChangedFiles quietSub
      { sampleCheckout with config := { sampleConfig with Path := "/manifests" } }
      ("HEAD~1" : GoString) []).1.2.1 = [] ∧
    (Checkout.ChangedFiles quietSub
      { sampleCheckout with config := { sampleConfig with Path := "/manifests" } }
      ("HEAD~1" : GoString) []).1.2.2
      = some (.new ("git subdirectory should not have leading forward slash" : GoString)) ∧
    (Checkout.ChangedFiles quietSub
      { sampleCheckout with config := { sampleConfig with Path := "/manifests" } }
      ("HEAD~1" : GoString) []).1.2.2 ≠ none ∧
    (Checkout.ChangedFiles quietSub
      { sampleCheckout with config := { sampleConfig with Path := "/manifests" } }
      ("HEAD~1" : GoString) []).2 = [] :=
  changedFiles_rejects_leading_slash quietSub
    { sampleCheckout with config := { sampleConfig with Path := "/manifests" } }
    ("HEAD~1" : GoString) [] rfl

/-- **C10.** When `Checkout.ChangedFiles` succeeds, the relative list is
`splitList` of the output of the diff, that is, the lines of that output with
the white space around it trimmed: no entry holds a newline and the entries
joined by newlines give the trimmed output.  The absolute list has the same
length and order, its entry at each position being the checkout directory
joined with the relative path there; and for every entry whose base name is a
file name (not `.`, `..` or `/`) the absolute and the relative form have the
same base name. -/
theorem changedFiles_absolute_and_relative (sub : Subprocess) (c : Checkout) (ref : GoString)
    (hok : (Checkout.ChangedFiles sub c ref []).1.2.2 = none) :
    (Checkout.ChangedFiles sub c ref []).1.2.1 =
      splitList (issue sub c.dir
        [("diff" : GoString), ("--name-only" : GoString), ("--diff-filter=ACMRT" : GoString),
          ref, ("--" : GoString), c.config.Path] []).result.stdout ∧
    (∀ f ∈ (Checkout.ChangedFiles sub c ref []).1.2.1, '\n' ∉ f) ∧
    joinSep '\n' (Checkout.ChangedFiles sub c ref []).1.2.1 =
      trimSpace (issue sub c.dir
        [("diff" : GoString), ("--name-only" : GoString), ("--diff-filter=ACMRT" : GoString),
          ref, ("--" : GoString), c.config.Path] []).result.stdout ∧
    (Checkout.ChangedFiles sub c ref []).1.1.length
      = (Checkout.ChangedFiles sub c ref []).1.2.1.length ∧
    (Checkout.ChangedFiles sub c ref []).1.1
      = (Checkout.ChangedFiles sub c ref []).1.2.1.map (filepathJoin c.dir) ∧
    ∀ (i : Nat) (f : GoString), (Checkout.ChangedFiles sub c ref []).1.2.1.get? i = some f →
      (Checkout.ChangedFiles sub c ref []).1.1.get? i = some (filepathJoin c.dir f) ∧
      (filepathBase f ≠ ['.'] → filepathBase f ≠ ['.', '.'] → filepathBase f ≠ ['/'] →
        filepathBase (filepathJoin c.dir f) = filepathBase f) := by
  have habs : (Checkout.ChangedFiles sub c ref []).1.1
      = (Checkout.ChangedFiles sub c ref []).1.2.1.map (filepathJoin c.dir) := by
    simp only [Checkout.ChangedFiles] at hok ⊢
    simp only [hok, ↓reduceIte]
  have hrel : (Checkout.ChangedFiles sub c ref []).1.2.1 =
      splitList (issue sub c.dir
        [("diff" : GoString), ("--name-only" : GoString), ("--diff-filter=ACMRT" : GoString),
          ref, ("--" : GoString), c.config.Path] []).result.stdout := by
    simp only [Checkout.ChangedFiles, changedFiles, execGitCmd] at hok ⊢
    by_cases hp : c.config.Path.head? = some '/'
    · simp [hp] at hok
    · simp only [hp, ↓reduceIte] at hok ⊢
      cases he : (issue sub c.dir
        [("diff" : GoString), ("--name-only" : GoString), ("--diff-filter=ACMRT" : GoString),
          ref, ("--" : GoString), c.config.Path] []).err with
      | none => simp only [he]
      | some err =>
        rw [he] at hok
        simp at hok
  refine ⟨hrel, ?_, ?_, ?_, habs, ?_⟩
  · rw [hrel]
    exact (splitList_lines _).1
  · rw [hrel]
    exact (splitList_lines _).2
  · rw [habs, List.length_map]
  · intro i f hf
    refine ⟨?_, filepathBase_join c.dir f⟩
    rw [habs]
    simp only [List.get?_eq_getElem?, List.getElem?_map] at hf ⊢
    rw [hf]
    rfl

/-- The statement of C10 at the sample checkout when the diff prints two
manifests: the first absolute path is the directory joined with the first
name, and both have the base name `app.yaml`. -/
theorem changedFiles_absolute_and_relative_witness :
    ((Checkout.ChangedFiles diffSub sampleCheckout ("HEAD~1" : GoString) []).1.1.get? 0
        = some (filepathJoin sampleCheckout.dir ("manifests/app.yaml" : GoString)) ∧
      (filepathBase ("manifests/app.yaml" : GoString) ≠ ['.'] →
        filepathBase ("manifests/app.yaml" : GoString) ≠ ['.', '.'] →
        filepathBase ("manifests/app.yaml" : GoString) ≠ ['/'] →
        filepathBase (filepathJoin sampleCheckout.dir ("manifests/app.yaml" : GoString))
          = filepathBase ("manifests/app.yaml" : GoString))) ∧
    filepathJoin sampleCheckout.dir ("manifests/app.yaml" : GoString)
      = ("/tmp/clone/manifests/app.yaml" : GoString) ∧
    filepathBase ("manifests/app.yaml" : GoString) = ("app.yaml" : GoString) :=
  ⟨(changedFiles_absolute_and_relative diffSub sampleCheckout ("HEAD~1" : GoString)
      (by decide)).2.2.2.2.2 0 ("manifests/app.yaml" : GoString) (by decide),
    by decide, by decide⟩

/-! ## Moving the sync tag -/

/-- **C11.** `moveTagAndPush` first issues `tag --force -a -m msg tag ref`.
When that fails its error, wrapped as `moving tag`, is returned and nothing
else is issued, so no push.  When it succeeds the forced push of the tag to
the upstream follows and is the last subprocess, its error being returned
wrapped as `pushing tag to origin`.  The result is nil exactly when both
steps succeeded, and `Checkout.MoveSyncTagAndPush` is `moveTagAndPush` for
`config.SyncTag` and the upstream URL. -/
theorem moveTagAndPush_tag_then_push (sub : Subprocess) (path tag ref msg upstream : GoString)
    (tr : Trace) :
    (∀ err,
      (issue sub path [("tag" : GoString), ("--force" : GoString), ("-a" : GoString),
        ("-m" : GoString), msg, tag, ref] tr).err = some err →
      (moveTagAndPush sub path tag ref msg upstream tr).1
        = some (.wrap err (("moving tag " : GoString) ++ tag)) ∧
      (moveTagAndPush sub path tag ref msg upstream tr).2
        = tr ++ [issue sub path [("tag" : GoString), ("--force" : GoString), ("-a" : GoString),
            ("-m" : GoString), msg, tag, ref] tr] ∧
      ¬ (issue sub path [("tag" : GoString), ("--force" : GoString), ("-a" : GoString),
            ("-m" : GoString), msg, tag, ref] tr).isPush) ∧
    ((issue sub path [("tag" : GoString), ("--force" : GoString), ("-a" : GoString),
        ("-m" : GoString), msg, tag, ref] tr).err = none →
      (moveTagAndPush sub path tag ref msg upstream tr).2
        = tr ++ [issue sub path [("tag" : GoString), ("--force" : GoString), ("-a" : GoString),
            ("-m" : GoString), msg, tag, ref] tr,
          issue sub path [("push" : GoString), ("--force" : GoString), upstream,
            ("tag" : GoString), tag]
            (tr ++ [issue sub path [("tag" : GoString), ("--force" : GoString),
              ("-a" : GoString), ("-m" : GoString), msg, tag, ref] tr])] ∧
      (moveTagAndPush sub path tag ref msg upstream tr).1
        = (issue sub path [("push" : GoString), ("--force" : GoString), upstream,
            ("tag" : GoString), tag]
            (tr ++ [issue sub path [("tag" : GoString), ("--force" : GoString),
              ("-a" : GoString), ("-m" : GoString), msg, tag, ref] tr])).err.map
          (fun err => GoError.wrap err ("pushing tag to origin" : GoString))) ∧
    ((moveTagAndPush sub path tag ref msg upstream tr).1 = none ↔
      (issue sub path [("tag" : GoString), ("--force" : GoString), ("-a" : GoString),
        ("-m" : GoString), msg, tag, ref] tr).err = none ∧
      (issue sub path [("push" : GoString), ("--force" : GoString), upstream,
        ("tag" : GoString), tag]
        (tr ++ [issue sub path [("tag" : GoString), ("--force" : GoString),
          ("-a" : GoString), ("-m" : GoString), msg, tag, ref] tr])).err = none) ∧
    (∀ (c : Checkout) (ref' msg' : GoString),
      Checkout.MoveSyncTagAndPush sub c ref' msg' tr
        = moveTagAndPush sub c.dir c.config.SyncTag ref' msg' c.upstream.URL tr) := by
  have a1 := issue_args sub path [("tag" : GoString), ("--force" : GoString),
    ("-a" : GoString), ("-m" : GoString), msg, tag, ref] tr
  simp only [moveTagAndPush, execGitCmd]
  generalize issue sub path [("tag" : GoString), ("--force" : GoString),
    ("-a" : GoString), ("-m" : GoString), msg, tag, ref] tr = e1 at *
  generalize issue sub path [("push" : GoString), ("--force" : GoString), upstream,
    ("tag" : GoString), tag] (tr ++ [e1]) = e2 at *
  refine ⟨?_, ?_, ?_, ?_⟩
  · intro err h
    simp [h, Entry.isPush, a1]
  · intro h
    simp only [h]
    cases e2.err <;> simp
  · cases h1 : e1.err with
    | some x => simp
    | none =>
      cases h2 : e2.err <;> simp
  · intro c ref' msg'
    rfl

/-! ## Clone -/

/-- **C12.** `Repo.Clone` returns either a checkout with a nil error or a nil
checkout with a non-nil error.  Once `workingClone` has given the working
directory without an error: when setting the commit identity fails, or, that
done, resolving the notes ref fails, the directory is handed to
`os.RemoveAll`, no further subprocess is issued and that error is returned
with a nil checkout; when both succeed nothing is removed and the checkout
holds the directory, the origin, the resolved notes ref and the config. -/
theorem clone_checkout_or_error (sub : Subprocess) (nameFirst : Bool) (r : Repo)
    (conf : Config) (tr : Trace) :
    (((∃ ck, (Repo.Clone sub nameFirst r conf tr).1.checkout = some ck) ∧
        (Repo.Clone sub nameFirst r conf tr).1.err = none) ∨
      ((Repo.Clone sub nameFirst r conf tr).1.checkout = none ∧
        ∃ e, (Repo.Clone sub nameFirst r conf tr).1.err = some e)) ∧
    ((r.workingClone sub conf.DevOpsTag tr).1.2 = none →
      (∀ err,
        (config sub nameFirst (r.workingClone sub conf.DevOpsTag tr).1.1 conf.UserName
          conf.UserEmail (r.workingClone sub conf.DevOpsTag tr).2).1 = some err →
        (Repo.Clone sub nameFirst r conf tr).1 =
          { checkout := none, err := some err,
            removed := [(r.workingClone sub conf.DevOpsTag tr).1.1] } ∧
        (Repo.Clone sub nameFirst r conf tr).2 =
          (config sub nameFirst (r.workingClone sub conf.DevOpsTag tr).1.1 conf.UserName
            conf.UserEmail (r.workingClone sub conf.DevOpsTag tr).2).2) ∧
      ((config sub nameFirst (r.workingClone sub conf.DevOpsTag tr).1.1 conf.UserName
          conf.UserEmail (r.workingClone sub conf.DevOpsTag tr).2).1 = none →
        (∀ err,
          (getNotesRef sub (r.workingClone sub conf.DevOpsTag tr).1.1 conf.NotesRef
            (config sub nameFirst (r.workingClone sub conf.DevOpsTag tr).1.1 conf.UserName
              conf.UserEmail (r.workingClone sub conf.DevOpsTag tr).2).2).1.2 = some err →
          (Repo.Clone sub nameFirst r conf tr).1 =
            { checkout := none, err := some err,
              removed := [(r.workingClone sub conf.DevOpsTag tr).1.1] } ∧
          (Repo.Clone sub nameFirst r conf tr).2 =
            (getNotesRef sub (r.workingClone sub conf.DevOpsTag tr).1.1 conf.NotesRef
              (config sub nameFirst (r.workingClone sub conf.DevOpsTag tr).1.1 conf.UserName
                conf.UserEmail (r.workingClone sub conf.DevOpsTag tr).2).2).2) ∧
        ((getNotesRef sub (r.workingClone sub conf.DevOpsTag tr).1.1 conf.NotesRef
            (config sub nameFirst (r.workingClone sub conf.DevOpsTag tr).1.1 conf.UserName
              conf.UserEmail (r.workingClone sub conf.DevOpsTag tr).2).2).1.2 = none →
          (Repo.Clone sub nameFirst r conf tr).1 =
            { checkout := some
                { dir := (r.workingClone sub conf.DevOpsTag tr).1.1, upstream := r.Origin,
                  realNotesRef :=
                    (getNotesRef sub (r.workingClone sub conf.DevOpsTag tr).1.1 conf.NotesRef
                      (config sub nameFirst (r.workingClone sub conf.DevOpsTag tr).1.1
                        conf.UserName conf.UserEmail
                        (r.workingClone sub conf.DevOpsTag tr).2).2).1.1,
                  config := conf },
              err := none, removed := [] }))) := by
  simp only [Repo.Clone]
  generalize r.workingClone sub conf.DevOpsTag tr = wc
  cases hw : wc.1.2 with
  | some e0 => simp
  | none =>
    simp only
    generalize config sub nameFirst wc.1.1 conf.UserName conf.UserEmail wc.2 = cf
    cases hc : cf.1 with
    | some e1 => simp
    | none =>
      simp only
      generalize getNotesRef sub wc.1.1 conf.NotesRef cf.2 = nr
      cases hn : nr.1.2 with
      | some e2 => simp
      | none => simp

/-! ## The commit of `CommitAndPush` -/

/-- **C13.** Every commit subprocess of a run of `Checkout.CommitAndPush`
is issued with the message `action.Message ++ config.SkipMessage` after `-m`
and nothing else changed: with `--author action.Author` before it when
`action.Author` is not empty, and without any author argument when it is
empty.  A run whose check reports changes issues that commit as its second
subprocess. -/
theorem commitAndPush_commit_arguments {ν : Type} (pkg : Package) (js : Json ν)
    (sub : Subprocess) (c : Checkout) (a : CommitAction) (note : Option ν) :
    (∀ e ∈ (Checkout.CommitAndPush pkg js sub c a note []).2, e.isCommit →
      (a.Author ≠ [] →
        e.call.args = [("commit" : GoString), ("--no-verify" : GoString), ("-a" : GoString),
          ("--author" : GoString), a.Author, ("-m" : GoString),
          a.Message ++ c.config.SkipMessage]) ∧
      (a.Author = [] →
        e.call.args = [("commit" : GoString), ("--no-verify" : GoString), ("-a" : GoString),
          ("-m" : GoString), a.Message ++ c.config.SkipMessage])) ∧
    ((check sub c.dir c.config.Path []).1 = true →
      ∃ e, (Checkout.CommitAndPush pkg js sub c a note []).2.get? 1 = some e ∧ e.isCommit) := by
  have hargs : ∀ e : Entry,
      e.call.args = commitArgs
        { Author := a.Author, Message := a.Message ++ c.config.SkipMessage } →
      (a.Author ≠ [] →
        e.call.args = [("commit" : GoString), ("--no-verify" : GoString), ("-a" : GoString),
          ("--author" : GoString), a.Author, ("-m" : GoString),
          a.Message ++ c.config.SkipMessage]) ∧
      (a.Author = [] →
        e.call.args = [("commit" : GoString), ("--no-verify" : GoString), ("-a" : GoString),
          ("-m" : GoString), a.Message ++ c.config.SkipMessage]) := by
    intro e he
    rw [he]
    unfold commitArgs
    constructor <;> intro h <;> simp [h]
  have hchk : (check sub c.dir c.config.Path []).1 =
      (issue sub c.dir [("diff" : GoString), ("--quiet" : GoString), ("--" : GoString),
        c.config.Path] []).err.isSome := by
    rw [check_eq]
  rw [hchk]
  refine CommitAndPush_cases_issued pkg js sub c a note
    (fun r =>
      (∀ e ∈ r.2, e.isCommit →
        (a.Author ≠ [] →
          e.call.args = [("commit" : GoString), ("--no-verify" : GoString), ("-a" : GoString),
            ("--author" : GoString), a.Author, ("-m" : GoString),
            a.Message ++ c.config.SkipMessage]) ∧
        (a.Author = [] →
          e.call.args = [("commit" : GoString), ("--no-verify" : GoString), ("-a" : GoString),
            ("-m" : GoString), a.Message ++ c.config.SkipMessage])) ∧
      ((issue sub c.dir [("diff" : GoString), ("--quiet" : GoString), ("--" : GoString),
          c.config.Path] []).err.isSome = true →
        ∃ e, r.2.get? 1 = some e ∧ e.isCommit))
    ?_ ?_ ?_ ?_ ?_ ?_ ?_
  · intro e1 he1 a1 h1
    refine ⟨?_, ?_⟩
    · intro e he hc
      simp at he
      subst he
      simp [Entry.isCommit, a1] at hc
    · intro h
      rw [← he1, h1] at h
      simp at h
  · intro e1 e2 x1 x2 _ a1 h1 _ a2 h2
    have c2 := commitArgs_head { Author := a.Author, Message := a.Message ++ c.config.SkipMessage }
    refine ⟨?_, fun _ => ⟨e2, by simp, by simp [Entry.isCommit, a2, c2]⟩⟩
    intro e he hc
    simp at he
    rcases he with rfl | rfl
    · simp [Entry.isCommit, a1] at hc
    · exact hargs _ a2
  · intro e1 e2 e3 x1 x3 n _ a1 h1 _ a2 h2 _ a3 h3
    have c2 := commitArgs_head { Author := a.Author, Message := a.Message ++ c.config.SkipMessage }
    refine ⟨?_, fun _ => ⟨e2, by simp, by simp [Entry.isCommit, a2, c2]⟩⟩
    intro e he hc
    simp at he
    rcases he with rfl | rfl | rfl
    · simp [Entry.isCommit, a1] at hc
    · exact hargs _ a2
    · simp [Entry.isCommit, a3] at hc
  · intro e1 e2 e3 x1 x n _ a1 h1 _ a2 h2 _ a3 h3 _
    have c2 := commitArgs_head { Author := a.Author, Message := a.Message ++ c.config.SkipMessage }
    refine ⟨?_, fun _ => ⟨e2, by simp, by simp [Entry.isCommit, a2, c2]⟩⟩
    intro e he hc
    simp at he
    rcases he with rfl | rfl | rfl
    · simp [Entry.isCommit, a1] at hc
    · exact hargs _ a2
    · simp [Entry.isCommit, a3] at hc
  · intro e1 e2 e3 e4 x1 x4 n b _ a1 h1 _ a2 h2 _ a3 h3 _ a4 h4
    have c2 := commitArgs_head { Author := a.Author, Message := a.Message ++ c.config.SkipMessage }
    refine ⟨?_, fun _ => ⟨e2, by simp, by simp [Entry.isCommit, a2, c2]⟩⟩
    intro e he hc
    simp at he
    rcases he with rfl | rfl | rfl | rfl
    · simp [Entry.isCommit, a1] at hc
    · exact hargs _ a2
    · simp [Entry.isCommit, a3] at hc
    · simp [Entry.isCommit, a4] at hc
  · intro e1 e2 e5 nt x1 x5 _ a1 h1 _ a2 h2 hnt a5 h5 _
    have c2 := commitArgs_head { Author := a.Author, Message := a.Message ++ c.config.SkipMessage }
    refine ⟨?_, fun _ => ⟨e2, by simp, by simp [Entry.isCommit, a2, c2]⟩⟩
    intro e he hc
    rcases hnt with ⟨_, rfl⟩ | ⟨n, b, e3, e4, _, _, rfl, a3, h3, a4, h4⟩
    · simp at he
      rcases he with rfl | rfl | rfl
      · simp [Entry.isCommit, a1] at hc
      · exact hargs _ a2
      · simp [Entry.isCommit, a5] at hc
    · simp at he
      rcases he with rfl | rfl | rfl | rfl | rfl
      · simp [Entry.isCommit, a1] at hc
      · exact hargs _ a2
      · simp [Entry.isCommit, a3] at hc
      · simp [Entry.isCommit, a4] at hc
      · simp [Entry.isCommit, a5] at hc
  · intro e1 e2 e5 e6 nt x1 refs _ a1 h1 _ a2 h2 hnt a5 _ a6
    have c2 := commitArgs_head { Author := a.Author, Message := a.Message ++ c.config.SkipMessage }
    refine ⟨?_, fun _ => ⟨e2, by simp, by simp [Entry.isCommit, a2, c2]⟩⟩
    intro e he hc
    rcases hnt with ⟨_, rfl⟩ | ⟨n, b, e3, e4, _, _, rfl, a3, h3, a4, h4⟩
    · simp at he
      rcases he with rfl | rfl | rfl | rfl
      · simp [Entry.isCommit, a1] at hc
      · exact hargs _ a2
      · simp [Entry.isCommit, a5] at hc
      · simp [Entry.isCommit, a6] at hc
    · simp at he
      rcases he with rfl | rfl | rfl | rfl | rfl | rfl
      · simp [Entry.isCommit, a1] at hc
      · exact hargs _ a2
      · simp [Entry.isCommit, a3] at hc
      · simp [Entry.isCommit, a4] at hc
      · simp [Entry.isCommit, a5] at hc
      · simp [Entry.isCommit, a6] at hc

/-! ## Parsing the log -/

theorem stringsSplitN2_of_mem (sep : Char) (l : GoString) (h : sep ∈ l) :
    stringsSplitN2 sep l =
      [l.takeWhile (fun c => c != sep), (l.dropWhile (fun c => c != sep)).tail] := by
  unfold stringsSplitN2
  cases hd : l.dropWhile (fun c => c != sep) with
  | nil =>
    rw [List.dropWhile_eq_nil_iff] at hd
    have := hd sep h
    simp at this
  | cons c rest => rfl

theorem stringsSplitN2_of_not_mem (sep : Char) (l : GoString) (h : sep ∉ l) :
    stringsSplitN2 sep l = [l] := by
  unfold stringsSplitN2
  have hd : l.dropWhile (fun c => c != sep) = [] := by
    rw [List.dropWhile_eq_nil_iff]
    intro x hx
    have : x ≠ sep := fun hxs => h (hxs ▸ hx)
    simpa using this
  rw [hd]

theorem splitLogLoop_of_spaces (lines : List GoString) (h : ∀ l ∈ lines, ' ' ∈ l) :
    splitLogLoop lines = .ok (lines.map (fun l =>
      { Revision := l.takeWhile (fun c => c != ' '),
        Message := (l.dropWhile (fun c => c != ' ')).tail })) := by
  induction lines with
  | nil => rfl
  | cons m ms ih =>
    have hm := h m (List.mem_cons_self _ _)
    have ih' := ih (fun l hl => h l (List.mem_cons_of_mem _ hl))
    simp only [splitLogLoop, stringsSplitN2_of_mem ' ' m hm, index, List.get?_cons_zero,
      List.get?_cons_succ, ih', List.map_cons]

theorem splitLogLoop_of_no_space (lines : List GoString) (h : ∃ l ∈ lines, ' ' ∉ l) :
    splitLogLoop lines = .error (.indexOutOfRange 1 1) := by
  induction lines with
  | nil =>
    obtain ⟨l, hl, _⟩ := h
    simp at hl
  | cons m ms ih =>
    by_cases hm : ' ' ∈ m
    · have hrest : ∃ l ∈ ms, ' ' ∉ l := by
        obtain ⟨l, hl, hn⟩ := h
        rcases List.mem_cons.mp hl with rfl | hl'
        · exact absurd hm hn
        · exact ⟨l, hl', hn⟩
      simp only [splitLogLoop, stringsSplitN2_of_mem ' ' m hm, index, List.get?_cons_zero,
        List.get?_cons_succ, ih hrest]
    · simp only [splitLogLoop, stringsSplitN2_of_not_mem ' ' m hm, index, List.get?_cons_zero,
        List.get?_cons_succ, List.get?_nil, List.length_singleton]

/-- What `splitLog` does: when every line of the trimmed output holds a
space it returns, with a nil error, one commit per line in order, the
revision being the text before the first space of the line and the message
the text after it, and the empty list for an output of white space only;
when some line holds no space it panics with an index out of range. -/
theorem splitLog_lines (s : GoString) :
    ((∀ l ∈ splitList s, ' ' ∈ l) →
      splitLog s = .ok ((splitList s).map (fun l =>
        { Revision := l.takeWhile (fun c => c != ' '),
          Message := (l.dropWhile (fun c => c != ' ')).tail }), none)) ∧
    (trimSpace s = [] → splitLog s = .ok ([], none)) ∧
    ((∃ l ∈ splitList s, ' ' ∉ l) → splitLog s = .error (.indexOutOfRange 1 1)) := by
  refine ⟨?_, ?_, ?_⟩
  · intro h
    simp only [splitLog, splitLogLoop_of_spaces _ h]
  · intro h
    simp [splitLog, splitList, h, splitLogLoop]
  · intro h
    simp only [splitLog, splitLogLoop_of_no_space _ h]

/-- **C14.** The code at the failing input: the log of two commits, the
earlier one with an empty subject.  Trimming the output takes the space that
ends its last line away, `strings.SplitN` gives one piece for that line, and
`splitLog` panics at `revAndMessage[1]`; so does `onelinelog`. -/
theorem splitLog_panics_on_empty_subject :
    splitList ("1a2b3c4 add x\n5d6e7f8 \n" : GoString)
      = [("1a2b3c4 add x" : GoString), ("5d6e7f8" : GoString)] ∧
    stringsSplitN2 ' ' ("5d6e7f8" : GoString) = [("5d6e7f8" : GoString)] ∧
    splitLog ("1a2b3c4 add x\n5d6e7f8 \n" : GoString) = .error (.indexOutOfRange 1 1) ∧
    (onelinelog emptySubjectSub ("/tmp/clone" : GoString) ("HEAD" : GoString)
      ("manifests" : GoString) []).1 = .error (.indexOutOfRange 1 1) :=
  ⟨by decide, by decide, rfl, rfl⟩

/-! ## The revisions that carry a note -/

theorem fieldsAux_eq_nil (l cur : GoString) :
    fieldsAux l cur = [] ↔ cur = [] ∧ ∀ c ∈ l, isSpace c = true := by
  induction l generalizing cur with
  | nil => simp [fieldsAux]
  | cons c cs ih =>
    unfold fieldsAux
    by_cases hc : isSpace c = true
    · by_cases hcur : cur = []
      · simp [hc, hcur, ih]
      · simp [hc, hcur]
    · simp [hc, ih]

/-- `strings.Fields` finds no field exactly in a line of white space. -/
theorem stringsFields_eq_nil (l : GoString) :
    stringsFields l = [] ↔ ∀ c ∈ l, isSpace c = true := by
  simp [stringsFields, fieldsAux_eq_nil]

theorem mapSet_nodup (result : List GoString) (key : GoString) (h : result.Nodup) :
    (mapSet result key).Nodup := by
  unfold mapSet
  by_cases hk : key ∈ result
  · simpa [hk] using h
  · simpa [hk] using h

theorem mem_mapSet (result : List GoString) (key rev : GoString) :
    rev ∈ mapSet result key ↔ rev = key ∨ rev ∈ result := by
  unfold mapSet
  by_cases hk : key ∈ result
  · simp only [hk, ↓reduceIte]
    constructor
    · exact Or.inr
    · rintro (rfl | h)
      · exact hk
      · exact h
  · simp [hk]

theorem noteRevLoop_ok (lines : List GoString) (acc : List GoString)
    (h : ∀ l ∈ lines, (stringsFields l).length ≠ 1) (hacc : acc.Nodup) :
    ∃ result, noteRevLoop lines acc = .ok result ∧ result.Nodup ∧
      ∀ rev, rev ∈ result ↔ rev ∈ acc ∨ ∃ l ∈ lines, (stringsFields l).get? 1 = some rev := by
  induction lines generalizing acc with
  | nil => exact ⟨acc, rfl, hacc, by simp⟩
  | cons l ls ih =>
    have hl := h l (List.mem_cons_self _ _)
    have hls : ∀ l' ∈ ls, (stringsFields l').length ≠ 1 :=
      fun l' hl' => h l' (List.mem_cons_of_mem _ hl')
    unfold noteRevLoop
    cases hf : stringsFields l with
    | nil =>
      obtain ⟨result, hr, hn, hm⟩ := ih acc hls hacc
      refine ⟨result, by simpa using hr, hn, ?_⟩
      intro rev
      rw [hm rev]
      simp [hf]
    | cons f fs =>
      cases fs with
      | nil => simp [hf] at hl
      | cons g gs =>
        obtain ⟨result, hr, hn, hm⟩ := ih (mapSet acc g) hls (mapSet_nodup acc g hacc)
        refine ⟨result, by simpa [index] using hr, hn, ?_⟩
        intro rev
        rw [hm rev]
        simp only [mem_mapSet, List.mem_cons, exists_eq_or_imp, hf,
          List.get?_cons_succ, List.get?_cons_zero, Option.some.injEq]
        constructor
        · rintro ((rfl | h1) | h2)
          · exact Or.inr (Or.inl rfl)
          · exact Or.inl h1
          · exact Or.inr (Or.inr h2)
        · rintro (h1 | rfl | h2)
          · exact Or.inl (Or.inr h1)
          · exact Or.inl (Or.inl rfl)
          · exact Or.inr h2

theorem noteRevLoop_panics (lines : List GoString) (acc : List GoString)
    (h : ∃ l ∈ lines, (stringsFields l).length = 1) :
    noteRevLoop lines acc = .error (.indexOutOfRange 1 1) := by
  induction lines generalizing acc with
  | nil =>
    obtain ⟨l, hl, _⟩ := h
    simp at hl
  | cons l ls ih =>
    unfold noteRevLoop
    by_cases h1 : (stringsFields l).length = 1
    · obtain ⟨f, hf⟩ := List.length_eq_one.mp h1
      simp [hf, index]
    · have hrest : ∃ l' ∈ ls, (stringsFields l').length = 1 := by
        obtain ⟨l', hl', hn⟩ := h
        rcases List.mem_cons.mp hl' with rfl | hl''
        · exact absurd hn h1
        · exact ⟨l', hl'', hn⟩
      cases hf : stringsFields l with
      | nil => simpa using ih acc hrest
      | cons f fs =>
        cases fs with
        | nil => simp [hf] at h1
        | cons g gs => simpa [index] using ih _ hrest

/-- What the loop of `noteRevList` does with the lines of the output: when no
line holds exactly one field it returns a set, without repetition, whose
members are the second fields of the lines that are not blank, one for each
such line; when some line holds exactly one field it panics with an index out
of range, the guard `len(split) > 0` letting the read of `split[1]`
through. -/
theorem noteRevLoop_fields (lines : List GoString) :
    ((∀ l ∈ lines, (stringsFields l).length ≠ 1) →
      ∃ result, noteRevLoop lines [] = .ok result ∧ result.Nodup ∧
        ∀ rev, rev ∈ result ↔ ∃ l ∈ lines, (stringsFields l).get? 1 = some rev) ∧
    ((∃ l ∈ lines, (stringsFields l).length = 1) →
      noteRevLoop lines [] = .error (.indexOutOfRange 1 1)) := by
  constructor
  · intro h
    obtain ⟨result, hr, hn, hm⟩ := noteRevLoop_ok lines [] h List.nodup_nil
    exact ⟨result, hr, hn, by simpa using hm⟩
  · exact noteRevLoop_panics lines []

/-- The guard of `noteRevList` alone does not cover the index it guards: on a
line that holds one field, which `git notes list` does not print, the guard
`len(split) > 0` holds, the read of `split[1]` is out of range, and
`noteRevList` panics. -/
theorem noteRevList_panics_on_one_field :
    splitList ("5d6e7f8091a2b3c4d5e6f708192a3b4c5d6e7f80\n" : GoString)
      = [("5d6e7f8091a2b3c4d5e6f708192a3b4c5d6e7f80" : GoString)] ∧
    (stringsFields ("5d6e7f8091a2b3c4d5e6f708192a3b4c5d6e7f80" : GoString)).length = 1 ∧
    (noteRevList oneFieldSub ("/tmp/clone" : GoString) ("refs/notes/choerodon" : GoString)
      []).1 = .error (.indexOutOfRange 1 1) ∧
    (Checkout.NoteRevList oneFieldSub sampleCheckout []).1 = .error (.indexOutOfRange 1 1) :=
  ⟨by decide, by decide, rfl, rfl⟩

/-- **C15.** On the output of the notes-list command `noteRevList` returns a
set without failing.  The command prints, for each note, the name of the note
object and the name of the object it annotates, so that no line of its output
holds exactly one field; that is the hypothesis.  Under it, when the command
succeeds, `noteRevList` issues that one command and returns a set without
repetition and no error; on every line that is not blank the read of
`split[1]` finds its field, and the line contributes that one revision; and
the set holds nothing else.  When the command fails, the result is the error
and no panic. -/
theorem noteRevList_returns_second_fields (sub : Subprocess) (workingDir notesRef : GoString)
    (tr : Trace)
    (hlines : ∀ l ∈ splitList (issue sub workingDir
        [("notes" : GoString), ("--ref" : GoString), notesRef, ("list" : GoString)] tr).result.stdout,
      (stringsFields l).length ≠ 1) :
    (noteRevList sub workingDir notesRef tr).2
      = tr ++ [issue sub workingDir
        [("notes" : GoString), ("--ref" : GoString), notesRef, ("list" : GoString)] tr] ∧
    (∀ err, (issue sub workingDir
        [("notes" : GoString), ("--ref" : GoString), notesRef, ("list" : GoString)] tr).err
          = some err →
      (noteRevList sub workingDir notesRef tr).1 = .ok ([], some err)) ∧
    ((issue sub workingDir
        [("notes" : GoString), ("--ref" : GoString), notesRef, ("list" : GoString)] tr).err
          = none →
      ∃ result, (noteRevList sub workingDir notesRef tr).1 = .ok (result, none) ∧
        result.Nodup ∧
        (∀ l ∈ splitList (issue sub workingDir
            [("notes" : GoString), ("--ref" : GoString), notesRef, ("list" : GoString)]
            tr).result.stdout,
          stringsFields l ≠ [] →
            ∃ rev, index (stringsFields l) 1 = .ok rev ∧ rev ∈ result) ∧
        (∀ rev ∈ result, ∃ l ∈ splitList (issue sub workingDir
            [("notes" : GoString), ("--ref" : GoString), notesRef, ("list" : GoString)]
            tr).result.stdout,
          stringsFields l ≠ [] ∧ index (stringsFields l) 1 = .ok rev)) := by
  generalize he : issue sub workingDir
    [("notes" : GoString), ("--ref" : GoString), notesRef, ("list" : GoString)] tr = e at *
  have hex : execGitCmd sub workingDir
      [("notes" : GoString), ("--ref" : GoString), notesRef, ("list" : GoString)] tr
        = ((e.err, e.result.stdout), tr ++ [e]) := by
    simp only [execGitCmd, he]
  refine ⟨?_, ?_, ?_⟩
  · unfold noteRevList
    rw [hex]
    dsimp only
    cases e.err with
    | some err => rfl
    | none =>
      dsimp only
      cases noteRevLoop (splitList e.result.stdout) [] <;> rfl
  · intro err herr
    unfold noteRevList
    rw [hex]
    dsimp only
    rw [herr]
  · intro hnone
    obtain ⟨result, hr, hn, hm⟩ := (noteRevLoop_fields (splitList e.result.stdout)).1 hlines
    refine ⟨result, ?_, hn, ?_, ?_⟩
    · unfold noteRevList
      rw [hex]
      dsimp only
      rw [hnone]
      dsimp only
      rw [hr]
    · intro l hl hne
      have h1 := hlines l hl
      cases hf : stringsFields l with
      | nil => exact absurd hf hne
      | cons f fs =>
        cases fs with
        | nil => simp [hf] at h1
        | cons g gs =>
          refine ⟨g, by simp [index], ?_⟩
          exact (hm g).2 ⟨l, hl, by simp [hf]⟩
    · intro rev hrev
      obtain ⟨l, hl, hg⟩ := (hm rev).1 hrev
      refine ⟨l, hl, ?_, ?_⟩
      · intro hnil
        simp [hnil] at hg
      · unfold index
        rw [hg]

/-- The theorem `noteRevList_returns_second_fields` at the output of
`git notes list` for two notes: no line holds exactly one field, the command
succeeds, and the set holds the two annotated revisions. -/
theorem noteRevList_returns_second_fields_witness :
    (∀ l ∈ splitList (issue notesListSub ("/tmp/clone" : GoString)
        [("notes" : GoString), ("--ref" : GoString), ("refs/notes/choerodon" : GoString),
          ("list" : GoString)] []).result.stdout,
      (stringsFields l).length ≠ 1) ∧
    (issue notesListSub ("/tmp/clone" : GoString)
        [("notes" : GoString), ("--ref" : GoString), ("refs/notes/choerodon" : GoString),
          ("list" : GoString)] []).err = none ∧
    (noteRevList notesListSub ("/tmp/clone" : GoString) ("refs/notes/choerodon" : GoString)
      []).1 = .ok ([("5d6e7f8091a2b3c4d5e6f708192a3b4c5d6e7f80" : GoString),
        ("1a2b3c4d5e6f708192a3b4c5d6e7f8091a2b3c4d" : GoString)], none) ∧
    ∃ result, (noteRevList notesListSub ("/tmp/clone" : GoString)
        ("refs/notes/choerodon" : GoString) []).1 = .ok (result, none) ∧ result.Nodup :=
  ⟨by decide, by decide, rfl,
    ((noteRevList_returns_second_fields notesListSub ("/tmp/clone" : GoString)
      ("refs/notes/choerodon" : GoString) [] (by decide)).2.2 (by decide)).imp
        (fun _ h => ⟨h.1, h.2.1⟩)⟩

/-! ## The check for local changes -/

/-- **C16.** `check` returns true exactly when `execGitCmd` returns a non-nil
error for the silent diff, whatever the error is.  So whenever that diff
fails, `Checkout.CommitAndPush` goes on: the diff is its first subprocess,
the commit its second, and a failing commit is what it returns, wrapped as
`git commit`.  In particular under a context that has expired `check` is
true, the commit is issued, and the run returns the deadline error of the
commit, having issued the diff and the commit only. -/
theorem check_true_on_any_error {ν : Type} (pkg : Package) (js : Json ν) (sub : Subprocess)
    (c : Checkout) (a : CommitAction) (note : Option ν) :
    (∀ d s tr, (check sub d s tr).1 = true ↔
      (issue sub d [("diff" : GoString), ("--quiet" : GoString), ("--" : GoString), s]
        tr).err ≠ none) ∧
    (∀ x,
      (issue sub c.dir [("diff" : GoString), ("--quiet" : GoString), ("--" : GoString),
        c.config.Path] []).err = some x →
      (check sub c.dir c.config.Path []).1 = true ∧
      (Checkout.CommitAndPush pkg js sub c a note []).2.get? 0 =
        some (issue sub c.dir [("diff" : GoString), ("--quiet" : GoString), ("--" : GoString),
          c.config.Path] []) ∧
      (Checkout.CommitAndPush pkg js sub c a note []).2.get? 1 =
        some (issue sub c.dir
          (commitArgs { Author := a.Author, Message := a.Message ++ c.config.SkipMessage })
          [issue sub c.dir [("diff" : GoString), ("--quiet" : GoString), ("--" : GoString),
            c.config.Path] []]) ∧
      (∀ x2,
        (issue sub c.dir
          (commitArgs { Author := a.Author, Message := a.Message ++ c.config.SkipMessage })
          [issue sub c.dir [("diff" : GoString), ("--quiet" : GoString), ("--" : GoString),
            c.config.Path] []]).err = some x2 →
        (Checkout.CommitAndPush pkg js sub c a note []).1
          = some (.wrap x2 ("git commit" : GoString)))) ∧
    ((∀ tr call, (sub tr call).ctxErr = .deadlineExceeded) →
      (check sub c.dir c.config.Path []).1 = true ∧
      (Checkout.CommitAndPush pkg js sub c a note []).1 =
        some (.wrap (deadlineError
          (commitArgs { Author := a.Author, Message := a.Message ++ c.config.SkipMessage }))
          ("git commit" : GoString)) ∧
      (Checkout.CommitAndPush pkg js sub c a note []).2.length = 2) := by
  have hA : ∀ d s tr, (check sub d s tr).1 = true ↔
      (issue sub d [("diff" : GoString), ("--quiet" : GoString), ("--" : GoString), s]
        tr).err ≠ none := by
    intro d s tr
    rw [check_eq]
    cases (issue sub d _ tr).err <;> simp
  have hB : ∀ x,
      (issue sub c.dir [("diff" : GoString), ("--quiet" : GoString), ("--" : GoString),
        c.config.Path] []).err = some x →
      (Checkout.CommitAndPush pkg js sub c a note []).2.get? 0 =
        some (issue sub c.dir [("diff" : GoString), ("--quiet" : GoString), ("--" : GoString),
          c.config.Path] []) ∧
      (Checkout.CommitAndPush pkg js sub c a note []).2.get? 1 =
        some (issue sub c.dir
          (commitArgs { Author := a.Author, Message := a.Message ++ c.config.SkipMessage })
          [issue sub c.dir [("diff" : GoString), ("--quiet" : GoString), ("--" : GoString),
            c.config.Path] []]) ∧
      (∀ x2,
        (issue sub c.dir
          (commitArgs { Author := a.Author, Message := a.Message ++ c.config.SkipMessage })
          [issue sub c.dir [("diff" : GoString), ("--quiet" : GoString), ("--" : GoString),
            c.config.Path] []]).err = some x2 →
        (Checkout.CommitAndPush pkg js sub c a note []).1
          = some (.wrap x2 ("git commit" : GoString))) := by
    refine CommitAndPush_cases_issued pkg js sub c a note
      (fun r => ∀ x,
        (issue sub c.dir [("diff" : GoString), ("--quiet" : GoString), ("--" : GoString),
          c.config.Path] []).err = some x →
        r.2.get? 0 =
          some (issue sub c.dir [("diff" : GoString), ("--quiet" : GoString),
            ("--" : GoString), c.config.Path] []) ∧
        r.2.get? 1 =
          some (issue sub c.dir
            (commitArgs { Author := a.Author, Message := a.Message ++ c.config.SkipMessage })
            [issue sub c.dir [("diff" : GoString), ("--quiet" : GoString), ("--" : GoString),
              c.config.Path] []]) ∧
        (∀ x2,
          (issue sub c.dir
            (commitArgs { Author := a.Author, Message := a.Message ++ c.config.SkipMessage })
            [issue sub c.dir [("diff" : GoString), ("--quiet" : GoString), ("--" : GoString),
              c.config.Path] []]).err = some x2 →
          r.1 = some (.wrap x2 ("git commit" : GoString))))
      ?_ ?_ ?_ ?_ ?_ ?_ ?_
    · intro e1 he1 _ h1 x hx
      rw [← he1, h1] at hx
      simp at hx
    · intro e1 e2 x1 x2 he1 _ h1 he2 _ h2 x _
      subst he1
      subst he2
      refine ⟨by simp, by simp, ?_⟩
      intro y hy
      rw [h2] at hy
      simp at hy
      simp [hy]
    · intro e1 e2 e3 x1 x3 n he1 _ h1 he2 _ h2 _ _ _ x _
      subst he1
      subst he2
      exact ⟨by simp, by simp, fun y hy => by rw [h2] at hy; simp at hy⟩
    · intro e1 e2 e3 x1 x' n he1 _ h1 he2 _ h2 _ _ _ _ x _
      subst he1
      subst he2
      exact ⟨by simp, by simp, fun y hy => by rw [h2] at hy; simp at hy⟩
    · intro e1 e2 e3 e4 x1 x4 n b he1 _ h1 he2 _ h2 _ _ _ _ _ _ x _
      subst he1
      subst he2
      exact ⟨by simp, by simp, fun y hy => by rw [h2] at hy; simp at hy⟩
    · intro e1 e2 e5 nt x1 x5 he1 _ h1 he2 _ h2 _ _ _ _ x _
      subst he1
      subst he2
      exact ⟨by simp, by simp, fun y hy => by rw [h2] at hy; simp at hy⟩
    · intro e1 e2 e5 e6 nt x1 refs he1 _ h1 he2 _ h2 _ _ _ _ x _
      subst he1
      subst he2
      exact ⟨by simp, by simp, fun y hy => by rw [h2] at hy; simp at hy⟩
  refine ⟨hA, fun x hx => ⟨(hA _ _ _).mpr (by rw [hx]; simp), hB x hx⟩, ?_⟩
  intro hexp
  refine ⟨(hA _ _ _).mpr (by rw [issue_expired sub hexp]; simp), ?_, ?_⟩
  · exact (hB _ (issue_expired sub hexp _ _ _)).2.2 _ (issue_expired sub hexp _ _ _)
  · simp only [Checkout.CommitAndPush, check_eq, commit_eq, issue_expired sub hexp,
      Option.isSome_some, Bool.not_true, Bool.false_eq_true, ↓reduceIte, Option.map_some']
    simp

end Git

namespace Polaris

open Git

/-! ## Loading the controllers of a kind -/

theorem appendEach_eq {α I : Type} (f : α → I) (xs : List α) (acc : List I) :
    appendEach f xs acc = acc ++ xs.map f := by
  unfold appendEach
  induction xs generalizing acc with
  | nil => simp
  | cons x xs ih => simp [ih]

theorem loadControllersByKind_eq {D S DS J CJ RC I : Type}
    (new : Constructors D S DS J CJ RC I) (controllerKind : SupportedController)
    (kubeResources : ResourceProvider D S DS J CJ RC) :
    LoadControllersByKind new controllerKind kubeResources =
      if (controllersOfKind new controllerKind kubeResources).length > 0 then
        (some (controllersOfKind new controllerKind kubeResources), none)
      else (none, some (noGenerator new controllerKind)) := by
  cases controllerKind <;>
    simp only [LoadControllersByKind, controllersOfKind, noGenerator, appendEach_eq,
      List.nil_append]

/-- **C17.** `LoadControllersByKind` returns a nil list with an error exactly
when it built no controller, which is so for a kind of the switch whose
resource list is empty and for every kind outside the switch; otherwise it
returns, with a nil error, the controllers built: one for each resource of
the requested kind, made by the constructor of that kind from the resources
of that kind and no other, in the provider's order. -/
theorem loadControllersByKind_error_iff_empty {D S DS J CJ RC I : Type}
    (new : Constructors D S DS J CJ RC I) (controllerKind : SupportedController)
    (kubeResources : ResourceProvider D S DS J CJ RC) :
    (controllersOfKind new controllerKind kubeResources = [] →
      LoadControllersByKind new controllerKind kubeResources
        = (none, some (noGenerator new controllerKind))) ∧
    (controllersOfKind new controllerKind kubeResources ≠ [] →
      LoadControllersByKind new controllerKind kubeResources
        = (some (controllersOfKind new controllerKind kubeResources), none)) ∧
    ((LoadControllersByKind new controllerKind kubeResources).2 ≠ none ↔
      controllersOfKind new controllerKind kubeResources = []) ∧
    ((LoadControllersByKind new controllerKind kubeResources).1 = none ↔
      controllersOfKind new controllerKind kubeResources = []) ∧
    (∀ n, LoadControllersByKind new (.other n) kubeResources
      = (none, some (noGenerator new (.other n)))) ∧
    (kubeResources.Deployments = [] →
      LoadControllersByKind new .Deployments kubeResources
        = (none, some (noGenerator new .Deployments))) ∧
    (kubeResources.StatefulSets = [] →
      LoadControllersByKind new .StatefulSets kubeResources
        = (none, some (noGenerator new .StatefulSets))) ∧
    (kubeResources.DaemonSets = [] →
      LoadControllersByKind new .DaemonSets kubeResources
        = (none, some (noGenerator new .DaemonSets))) ∧
    (kubeResources.Jobs = [] →
      LoadControllersByKind new .Jobs kubeResources
        = (none, some (noGenerator new .Jobs))) ∧
    (kubeResources.CronJobs = [] →
      LoadControllersByKind new .CronJobs kubeResources
        = (none, some (noGenerator new .CronJobs))) ∧
    (kubeResources.ReplicationControllers = [] →
      LoadControllersByKind new .ReplicationControllers kubeResources
        = (none, some (noGenerator new .ReplicationControllers))) := by
  have key : ∀ k, LoadControllersByKind new k kubeResources =
      if (controllersOfKind new k kubeResources).length > 0 then
        (some (controllersOfKind new k kubeResources), none)
      else (none, some (noGenerator new k)) := fun k => loadControllersByKind_eq new k _
  refine ⟨?_, ?_, ?_, ?_, ?_, ?_, ?_, ?_, ?_, ?_, ?_⟩
  · intro h
    rw [key, h]
    simp
  · intro h
    rw [key]
    have : (controllersOfKind new controllerKind kubeResources).length > 0 :=
      List.length_pos.mpr h
    simp [this]
  · rw [key]
    by_cases h : controllersOfKind new controllerKind kubeResources = []
    · simp [h]
    · have : (controllersOfKind new controllerKind kubeResources).length > 0 :=
        List.length_pos.mpr h
      simp [this, h]
  · rw [key]
    by_cases h : controllersOfKind new controllerKind kubeResources = []
    · simp [h]
    · have : (controllersOfKind new controllerKind kubeResources).length > 0 :=
        List.length_pos.mpr h
      simp [this, h]
  · intro n
    rw [key]
    simp [controllersOfKind]
  all_goals
    intro h
    rw [key]
    simp [controllersOfKind, h]

end Polaris
